import Mathlib

/-!
# A verification development for the `owm` OpenWeatherMap client (Go)

The Go package `owm` (file `client.go`) is embedded shallowly: every function of
the package becomes a Lean function of the same name, Go strings and byte slices
become lists of bytes, and the parts of the Go standard library the package calls
(`strconv`, `time`, `net/url`, `net/http`, `encoding/json`, `fmt`) are modelled by
executable definitions that follow the library sources.  The network is a
parameter: a function from the request that is sent to the response (or the
transport error) that comes back.

`int` is taken to be 64 bits wide, as on every 64-bit platform.
-/

namespace Owm

deriving instance DecidableEq for Except

/-! ## Bytes and strings -/

/-- A Go `string` or `[]byte`: a finite sequence of bytes. -/
abbrev Bytes := List UInt8

/-- UTF-8 encoding of one character. -/
def utf8 (c : Char) : Bytes :=
  let n := c.toNat
  if n < 0x80 then [UInt8.ofNat n]
  else if n < 0x800 then [UInt8.ofNat (0xC0 + n / 64), UInt8.ofNat (0x80 + n % 64)]
  else if n < 0x10000 then
    [UInt8.ofNat (0xE0 + n / 4096), UInt8.ofNat (0x80 + n / 64 % 64), UInt8.ofNat (0x80 + n % 64)]
  else
    [UInt8.ofNat (0xF0 + n / 262144), UInt8.ofNat (0x80 + n / 4096 % 64),
      UInt8.ofNat (0x80 + n / 64 % 64), UInt8.ofNat (0x80 + n % 64)]

/-- The bytes of a string literal of the Go source (Go source text is UTF-8). -/
def str (s : String) : Bytes := s.toList.flatMap utf8

/-! ## `strconv.Atoi` -/

/-- The two sentinel errors a `*strconv.NumError` wraps. -/
inductive NumErrKind where
  | ErrSyntax
  | ErrRange
deriving DecidableEq, Repr

/-- Go's `strconv.NumError`: the failing function, the input and the cause. -/
structure NumError where
  Func : String
  Num : Bytes
  Err : NumErrKind
deriving DecidableEq, Repr

/-- Conversion to `int64` with two's-complement wrap-around. -/
def wrapInt64 (x : Int) : Int := (x + 2 ^ 63) % 2 ^ 64 - 2 ^ 63

/-- The digit loop of the fast path of `strconv.Atoi`:
`ch -= '0'; if ch > 9 { syntax error }; n = n*10 + int(ch)`.
The subtraction is on `byte`, so a byte below `'0'` wraps to a value above 9. -/
def atoiFast : Bytes → Int → Option Int
  | [], n => some n
  | ch :: rest, n =>
    let d := ch - 48
    if d > 9 then none else atoiFast rest (wrapInt64 (n * 10 + (d.toNat : Int)))

/-- The constant `maxUint64` of `strconv`. -/
def maxUint64 : Nat := 2 ^ 64 - 1

/-- The loop of `strconv.ParseUint(s, 10, 64)` on `uint64`.  With base 10 a letter
is a digit value of at least 10 and so a syntax error, like every other byte
that is not a decimal digit; underscores are only legal with base 0. -/
def parseUintLoop : Bytes → Nat → Except NumErrKind Nat
  | [], n => .ok n
  | c :: rest, n =>
    if 48 ≤ c ∧ c ≤ 57 then
      let d := (c - 48).toNat
      if n ≥ maxUint64 / 10 + 1 then .error .ErrRange
      else
        let n10 := n * 10 % 2 ^ 64
        let n1 := (n10 + d) % 2 ^ 64
        if n1 < n10 ∨ n1 > maxUint64 then .error .ErrRange
        else parseUintLoop rest n1
    else .error .ErrSyntax

/-- Go's `strconv.ParseUint(s, 10, 64)`. -/
def ParseUint (s : Bytes) : Except NumErrKind Nat :=
  if s = [] then .error .ErrSyntax else parseUintLoop s 0

/-- Go's `strconv.ParseInt(s, 10, 0)` with a 64-bit `int`.  On a range error
`ParseUint` hands back `maxUint64`, which the cutoff test then rejects. -/
def ParseInt (s : Bytes) : Except NumError Int :=
  if s = [] then .error ⟨"ParseInt", s, .ErrSyntax⟩
  else
    let s0 := s
    let neg := s.head? = some 45
    let s := if s.head? = some 43 ∨ s.head? = some 45 then s.tail else s
    match ParseUint s with
    | .error .ErrSyntax => .error ⟨"ParseInt", s0, .ErrSyntax⟩
    | r =>
      let un := match r with
        | .ok v => v
        | .error _ => maxUint64
      let cutoff := 2 ^ 63
      if ¬ neg ∧ un ≥ cutoff then .error ⟨"ParseInt", s0, .ErrRange⟩
      else if neg ∧ un > cutoff then .error ⟨"ParseInt", s0, .ErrRange⟩
      else
        let n := wrapInt64 un
        .ok (if neg then wrapInt64 (-n) else n)

/-- Go's `strconv.Atoi` on a platform with 64-bit `int`: a fast path for inputs of
1 to 18 bytes, and `ParseInt(s, 10, 0)` for everything else. -/
def Atoi (s : Bytes) : Except NumError Int :=
  let sLen := s.length
  if 0 < sLen ∧ sLen < 19 then
    let s0 := s
    let signed := s.head? = some 45 ∨ s.head? = some 43
    let s := if signed then s.tail else s
    if signed ∧ s.length < 1 then .error ⟨"Atoi", s0, .ErrSyntax⟩
    else
      match atoiFast s 0 with
      | none => .error ⟨"Atoi", s0, .ErrSyntax⟩
      | some n => .ok (if s0.head? = some 45 then wrapInt64 (-n) else n)
  else
    match ParseInt s with
    | .error nerr => .error { nerr with Func := "Atoi" }
    | .ok i64 => .ok i64

/-! ## `time.Time` and `time.Unix` -/

/-- The location pointer of a `time.Time`. -/
inductive Location where
  | UTC
  | Local
deriving DecidableEq, Repr

/-- Go's `time.Time`: the wall word (here only its nanosecond field is ever set),
the seconds since year 1 in `ext`, and the location.  The package's own type
`Time` is declared as `type Time time.Time` and has the same representation. -/
structure Time where
  wall : Nat
  ext : Int
  loc : Location
deriving DecidableEq, Repr

/-- Seconds from year 1 to 1970, the constant `unixToInternal` of package `time`. -/
def unixToInternal : Int := (1969 * 365 + 1969 / 4 - 1969 / 100 + 1969 / 400) * 86400

/-- Go's `time.Unix(sec, nsec)`: `nsec` is brought into `[0, 1e9)` and the seconds
are stored relative to year 1, in an `int64`. -/
def timeUnix (sec nsec : Int) : Time :=
  let sec := if nsec < 0 ∨ nsec ≥ 1000000000 then wrapInt64 (sec + nsec / 1000000000) else sec
  let nsec := if nsec < 0 ∨ nsec ≥ 1000000000 then nsec % 1000000000 else nsec
  ⟨nsec.toNat, wrapInt64 (sec + unixToInternal), .Local⟩

/-- Go's `Time.Unix()`: the seconds since the Unix epoch of an instant without a
monotonic reading. -/
def Time.Unix (t : Time) : Int := wrapInt64 (t.ext - unixToInternal)

/-- Go's `Time.Nanosecond()`: the low 30 bits of the wall word. -/
def Time.Nanosecond (t : Time) : Nat := t.wall % 2 ^ 30

/-- Days from 1970-01-01 to the given day of the proleptic Gregorian calendar. -/
def daysFromCivil (y m d : Int) : Int :=
  let y := if m ≤ 2 then y - 1 else y
  let era := y / 400
  let yoe := y - era * 400
  let doy := (153 * (if m > 2 then m - 3 else m + 9) + 2) / 5 + d - 1
  let doe := yoe * 365 + yoe / 4 - yoe / 100 + doy
  era * 146097 + doe - 719468

/-- The Unix time of `time.Date(y, m, d, hh, mm, ss, 0, time.UTC)`. -/
def dateUTC (y m d hh mm ss : Int) : Int :=
  daysFromCivil y m d * 86400 + hh * 3600 + mm * 60 + ss

/-! ## The package's timestamp type -/

/-- The method `func (t *Time) UnmarshalJSON(b []byte) error` of `client.go`.
The receiver is passed in and the new receiver comes back with the error. -/
def Time.UnmarshalJSON (t : Time) (b : Bytes) : Time × Option NumError :=
  match Atoi b with
  | .error err => (t, some err)
  | .ok timestamp => (timeUnix timestamp 0, none)

/-! ## What the specification calls a decimal integer literal -/

/-- A decimal digit. -/
def isDigit (c : UInt8) : Bool := decide (48 ≤ c ∧ c ≤ 57)

/-- The number a digit string denotes, continuing from `n`. -/
def digitsFrom (n : Nat) (ds : Bytes) : Nat :=
  ds.foldl (fun n c => n * 10 + (c.toNat - 48)) n

/-- A non-empty string of decimal digits and its value. -/
def unsignedLiteral (ds : Bytes) : Option Nat :=
  if ds ≠ [] ∧ ds.all isDigit = true then some (digitsFrom 0 ds) else none

/-- A decimal integer literal, stated from the specification's words: an optional
sign followed by one or more decimal digits, with the integer it denotes (of any
size).  `none` for every other token. -/
def decimalLiteral (s : Bytes) : Option Int :=
  match s with
  | [] => none
  | c :: ds =>
    if c = 45 then (unsignedLiteral ds).map (fun (v : Nat) => -(v : Int))
    else if c = 43 then (unsignedLiteral ds).map (fun (v : Nat) => (v : Int))
    else (unsignedLiteral (c :: ds)).map (fun (v : Nat) => (v : Int))

/-- The tail of `ParseInt`, after the unsigned part has been converted: the cutoff test. -/
def parseIntTail (neg : Bool) (s0 : Bytes) (r : Except NumErrKind Nat) : Except NumError Int :=
  match r with
  | .error .ErrSyntax => .error ⟨"ParseInt", s0, .ErrSyntax⟩
  | r =>
    let un := match r with
      | .ok v => v
      | .error _ => maxUint64
    let cutoff := 2 ^ 63
    if ¬ neg ∧ un ≥ cutoff then .error ⟨"ParseInt", s0, .ErrRange⟩
    else if neg ∧ un > cutoff then .error ⟨"ParseInt", s0, .ErrRange⟩
    else
      let n := wrapInt64 un
      .ok (if neg then wrapInt64 (-n) else n)


/-! ## Package `strings` -/

/-- Go's `strings.Cut(s, sep)` for a one-byte separator: the text before and after
the first `sep`, and whether `sep` occurs. -/
def cut : Bytes → UInt8 → Bytes × Bytes × Bool
  | [], _ => ([], [], false)
  | c :: rest, sep =>
    if c = sep then ([], rest, true)
    else
      let r := cut rest sep
      (c :: r.1, r.2.1, r.2.2)

/-- Go's `strings.Index(s, substr)`; `none` stands for -1. -/
def indexOf (substr : Bytes) : Bytes → Option Nat
  | [] => if substr = [] then some 0 else none
  | c :: rest =>
    if substr.isPrefixOf (c :: rest) then some 0
    else (indexOf substr rest).map (· + 1)

/-- Go's `strings.LastIndexByte(s, c)`; `none` stands for -1. -/
def lastIndexByte (s : Bytes) (c : UInt8) : Option Nat :=
  match indexOf [c] s.reverse with
  | none => none
  | some i => some (s.length - 1 - i)

/-- Go's `strings.HasSuffix(s, suffix)`. -/
def hasSuffix (s suffix : Bytes) : Bool := suffix.reverse.isPrefixOf s.reverse

/-- Go's `strings.ToLower` on ASCII text. -/
def toLowerASCII (s : Bytes) : Bytes :=
  s.map (fun c => if 65 ≤ c ∧ c ≤ 90 then c + 32 else c)

/-! ## Package `net/url`: escaping -/

/-- The `encoding` modes of `net/url`. -/
inductive Encoding where
  | encodePath
  | encodePathSegment
  | encodeHost
  | encodeZone
  | encodeUserPassword
  | encodeQueryComponent
  | encodeFragment
deriving DecidableEq, Repr

/-- An ASCII letter or digit. -/
def isAlnum (c : UInt8) : Bool :=
  decide ((97 ≤ c ∧ c ≤ 122) ∨ (65 ≤ c ∧ c ≤ 90) ∨ (48 ≤ c ∧ c ≤ 57))

/-- Go's `url.shouldEscape(c, mode)`. -/
def shouldEscape (c : UInt8) (mode : Encoding) : Bool :=
  if isAlnum c then false
  else if (mode = .encodeHost ∨ mode = .encodeZone) ∧
      c ∈ [33, 36, 38, 39, 40, 41, 42, 43, 44, 59, 61, 58, 91, 93, 60, 62, 34] then false
  else if c ∈ [45, 95, 46, 126] then false
  else if c ∈ [36, 38, 43, 44, 47, 58, 59, 61, 63, 64] ∧ mode = .encodePath then
    decide (c = 63)
  else if c ∈ [36, 38, 43, 44, 47, 58, 59, 61, 63, 64] ∧ mode = .encodePathSegment then
    decide (c = 47 ∨ c = 59 ∨ c = 44 ∨ c = 63)
  else if c ∈ [36, 38, 43, 44, 47, 58, 59, 61, 63, 64] ∧ mode = .encodeUserPassword then
    decide (c = 64 ∨ c = 47 ∨ c = 63 ∨ c = 58)
  else if c ∈ [36, 38, 43, 44, 47, 58, 59, 61, 63, 64] ∧ mode = .encodeQueryComponent then
    true
  else if c ∈ [36, 38, 43, 44, 47, 58, 59, 61, 63, 64] ∧ mode = .encodeFragment then
    false
  else if mode = .encodeFragment ∧ c ∈ [33, 40, 41, 42] then false
  else true

/-- Go's `url.ishex`. -/
def ishex (c : UInt8) : Bool :=
  decide ((48 ≤ c ∧ c ≤ 57) ∨ (97 ≤ c ∧ c ≤ 102) ∨ (65 ≤ c ∧ c ≤ 70))

/-- Go's `url.unhex`. -/
def unhex (c : UInt8) : UInt8 :=
  if 48 ≤ c ∧ c ≤ 57 then c - 48
  else if 97 ≤ c ∧ c ≤ 102 then c - 97 + 10
  else if 65 ≤ c ∧ c ≤ 70 then c - 65 + 10
  else 0

/-- The table `upperhex = "0123456789ABCDEF"` of `net/url`, indexed by a nibble. -/
def upperhex (n : UInt8) : UInt8 := if n < 10 then 48 + n else 55 + n

/-- What goes wrong inside `net/url`. -/
inductive URLErr where
  | escapeError (s : Bytes)
  | invalidHostError (s : Bytes)
  | invalidControlCharacter
  | missingProtocolScheme
  | firstPathSegmentColon
  | missingBracket
  | invalidPort (port : Bytes)
  | invalidUserinfo
  | invalidSemicolon
deriving DecidableEq, Repr

/-- What the loop of Go's `url.escape` writes for one byte: `+` for a space in a
query component, `%XX` for every other byte that `shouldEscape` names, the byte
itself otherwise. -/
def escapeByte (c : UInt8) (mode : Encoding) : Bytes :=
  if c = 32 ∧ mode = .encodeQueryComponent then [43]
  else if shouldEscape c mode then [37, upperhex (c >>> 4), upperhex (c &&& 15)]
  else [c]

/-- Go's `url.escape(s, mode)`. -/
def escape (s : Bytes) (mode : Encoding) : Bytes := s.flatMap fun c => escapeByte c mode

/-- Go's `url.unescape(s, mode)`.  Go checks the whole string before it decodes;
the first malformed place decides the error in both readings. -/
def unescape : Bytes → Encoding → Except URLErr Bytes
  | [], _ => .ok []
  | c :: rest, mode =>
    if c = 37 then
      match rest with
      | a :: b :: rest2 =>
        if ¬ (ishex a ∧ ishex b) then .error (.escapeError ((c :: rest).take 3))
        else if mode = .encodeHost ∧ unhex a < 8 ∧ [c, a, b] ≠ [37, 50, 53] then
          .error (.escapeError [c, a, b])
        else if mode = .encodeZone ∧ [c, a, b] ≠ [37, 50, 53] ∧
            (unhex a <<< 4 ||| unhex b) ≠ 32 ∧
            shouldEscape (unhex a <<< 4 ||| unhex b) .encodeHost then
          .error (.escapeError [c, a, b])
        else
          match unescape rest2 mode with
          | .error e => .error e
          | .ok t => .ok ((unhex a <<< 4 ||| unhex b) :: t)
      | _ => .error (.escapeError ((c :: rest).take 3))
    else if c = 43 then
      match unescape rest mode with
      | .error e => .error e
      | .ok t => .ok ((if mode = .encodeQueryComponent then 32 else 43) :: t)
    else if (mode = .encodeHost ∨ mode = .encodeZone) ∧ c < 128 ∧ shouldEscape c .encodeHost then
      .error (.invalidHostError [c])
    else
      match unescape rest mode with
      | .error e => .error e
      | .ok t => .ok (c :: t)

/-- Go's `url.QueryEscape`. -/
def QueryEscape (s : Bytes) : Bytes := escape s .encodeQueryComponent

/-- Go's `url.QueryUnescape`. -/
def QueryUnescape (s : Bytes) : Except URLErr Bytes := unescape s .encodeQueryComponent

/-- Go's `url.validEncoded(s, mode)`. -/
def validEncoded (s : Bytes) (mode : Encoding) : Bool :=
  s.all fun c =>
    if c ∈ [33, 36, 38, 39, 40, 41, 42, 43, 44, 59, 61, 58, 64, 91, 93, 37] then true
    else ! shouldEscape c mode

/-! ## Package `net/url`: query values -/

/-- Go's `url.Values`, a `map[string][]string`, as an association list in which
every key occurs once. -/
abbrev Values := List (Bytes × List Bytes)

/-- The map read `v[key]`; a missing key reads as the nil slice. -/
def Values.get (v : Values) (key : Bytes) : List Bytes :=
  match v with
  | [] => []
  | (k, vs) :: rest => if k = key then vs else Values.get rest key

/-- Go's `Values.Add(key, value)`: `v[key] = append(v[key], value)`. -/
def Values.Add (v : Values) (key value : Bytes) : Values :=
  match v with
  | [] => [(key, [value])]
  | (k, vs) :: rest => if k = key then (k, vs ++ [value]) :: rest else (k, vs) :: Values.Add rest key value

/-- The loop of Go's `url.parseQuery`: the pairs between `&`, each cut at its first
`=`, both halves unescaped; a pair that fails is skipped and the first error kept. -/
def parseQueryLoop : Nat → Bytes → Values → Option URLErr → Values × Option URLErr
  | 0, _, m, err => (m, err)
  | fuel + 1, query, m, err =>
    if query = [] then (m, err)
    else
      let c := cut query 38
      let key := c.1
      let query := c.2.1
      if 59 ∈ key then
        parseQueryLoop fuel query m (some .invalidSemicolon)
      else if key = [] then parseQueryLoop fuel query m err
      else
        let kv := cut key 61
        match QueryUnescape kv.1 with
        | .error err1 => parseQueryLoop fuel query m (if err = none then some err1 else err)
        | .ok key =>
          match QueryUnescape kv.2.1 with
          | .error err1 => parseQueryLoop fuel query m (if err = none then some err1 else err)
          | .ok value => parseQueryLoop fuel query (Values.Add m key value) err

/-- Go's `url.ParseQuery(query)`.  Every round of the loop removes at least one
byte, so the length of the query is fuel enough. -/
def ParseQuery (query : Bytes) : Values × Option URLErr :=
  parseQueryLoop query.length query [] none

/-- Go's string comparison `a < b`: bytewise lexicographic. -/
def bytesLt : Bytes → Bytes → Bool
  | [], [] => false
  | [], _ :: _ => true
  | _ :: _, [] => false
  | a :: as, b :: bs => if a < b then true else if b < a then false else bytesLt as bs

/-- Insertion of a key into a sorted list of keys. -/
def insertKey (k : Bytes) : List Bytes → List Bytes
  | [] => [k]
  | x :: xs => if bytesLt x k then x :: insertKey k xs else k :: x :: xs

/-- Go's `slices.Sort(keys)`. -/
def sortKeys (keys : List Bytes) : List Bytes := keys.foldr insertKey []

/-- The text `Values.Encode` writes for a list of key-value pairs:
`QueryEscape(key)=QueryEscape(value)` for each, joined by `&`. -/
def encodePairs : List (Bytes × Bytes) → Bytes
  | [] => []
  | [p] => QueryEscape p.1 ++ [61] ++ QueryEscape p.2
  | p :: q :: rest => QueryEscape p.1 ++ [61] ++ QueryEscape p.2 ++ [38] ++ encodePairs (q :: rest)

/-- Go's `Values.Encode()`: the keys in sorted order, each value as
`QueryEscape(key)=QueryEscape(value)`, joined by `&`. -/
def Values.Encode (v : Values) : Bytes :=
  (sortKeys (v.map (·.1))).foldl
    (fun buf k =>
      (Values.get v k).foldl
        (fun buf value =>
          (if buf.length > 0 then buf ++ [38] else buf) ++ QueryEscape k ++ [61] ++
            QueryEscape value)
        buf)
    []


/-! ## Package `net/url`: parsing and printing -/

/-- Go's `url.Userinfo`. -/
structure Userinfo where
  username : Bytes
  password : Bytes
  passwordSet : Bool
deriving DecidableEq, Repr

/-- Go's `url.URL`. -/
structure URL where
  Scheme : Bytes := []
  Opaque : Bytes := []
  User : Option Userinfo := none
  Host : Bytes := []
  Path : Bytes := []
  RawPath : Bytes := []
  OmitHost : Bool := false
  ForceQuery : Bool := false
  RawQuery : Bytes := []
  Fragment : Bytes := []
  RawFragment : Bytes := []
deriving DecidableEq, Repr

/-- Go's `url.stringContainsCTLByte`. -/
def stringContainsCTLByte (s : Bytes) : Bool := s.any fun b => decide (b < 32 ∨ b = 127)

/-- The loop of Go's `url.getScheme`; `i` is the index of the byte at hand. -/
def getSchemeLoop (rawURL : Bytes) : Bytes → Nat → Except URLErr (Bytes × Bytes)
  | [], _ => .ok ([], rawURL)
  | c :: rest, i =>
    if (97 ≤ c ∧ c ≤ 122) ∨ (65 ≤ c ∧ c ≤ 90) then getSchemeLoop rawURL rest (i + 1)
    else if (48 ≤ c ∧ c ≤ 57) ∨ c = 43 ∨ c = 45 ∨ c = 46 then
      if i = 0 then .ok ([], rawURL) else getSchemeLoop rawURL rest (i + 1)
    else if c = 58 then
      if i = 0 then .error .missingProtocolScheme else .ok (rawURL.take i, rest)
    else .ok ([], rawURL)

/-- Go's `url.getScheme(rawURL)`: the scheme before the first colon, if the text up
to there is a scheme, and the rest. -/
def getScheme (rawURL : Bytes) : Except URLErr (Bytes × Bytes) :=
  getSchemeLoop rawURL rawURL 0

/-- Go's `url.validOptionalPort`. -/
def validOptionalPort (port : Bytes) : Bool :=
  match port with
  | [] => true
  | c :: rest => decide (c = 58) && rest.all fun b => decide (48 ≤ b ∧ b ≤ 57)

/-- Go's `url.validUserinfo`. -/
def validUserinfo (s : Bytes) : Bool :=
  s.all fun r =>
    isAlnum r ||
      decide (r ∈ [45, 46, 95, 58, 126, 33, 36, 38, 39, 40, 41, 42, 43, 44, 59, 61, 37, 64])

/-- Go's `url.parseHost`. -/
def parseHost (host : Bytes) : Except URLErr Bytes :=
  if host.head? = some 91 then
    match lastIndexByte host 93 with
    | none => .error .missingBracket
    | some i =>
      let colonPort := host.drop (i + 1)
      if ! validOptionalPort colonPort then .error (.invalidPort colonPort)
      else
        match indexOf [37, 50, 53] (host.take i) with
        | some zone =>
          match unescape (host.take zone) .encodeHost with
          | .error e => .error e
          | .ok host1 =>
            match unescape ((host.take i).drop zone) .encodeZone with
            | .error e => .error e
            | .ok host2 =>
              match unescape (host.drop i) .encodeHost with
              | .error e => .error e
              | .ok host3 => .ok (host1 ++ host2 ++ host3)
        | none => unescape host .encodeHost
  else
    match lastIndexByte host 58 with
    | some i =>
      let colonPort := host.drop i
      if ! validOptionalPort colonPort then .error (.invalidPort colonPort)
      else unescape host .encodeHost
    | none => unescape host .encodeHost

/-- Go's `url.parseAuthority`. -/
def parseAuthority (authority : Bytes) : Except URLErr (Option Userinfo × Bytes) :=
  match lastIndexByte authority 64 with
  | none =>
    match parseHost authority with
    | .error e => .error e
    | .ok host => .ok (none, host)
  | some i =>
    match parseHost (authority.drop (i + 1)) with
    | .error e => .error e
    | .ok host =>
      let userinfo := authority.take i
      if ! validUserinfo userinfo then .error .invalidUserinfo
      else if 58 ∉ userinfo then
        match unescape userinfo .encodeUserPassword with
        | .error e => .error e
        | .ok username => .ok (some ⟨username, [], false⟩, host)
      else
        let up := cut userinfo 58
        match unescape up.1 .encodeUserPassword with
        | .error e => .error e
        | .ok username =>
          match unescape up.2.1 .encodeUserPassword with
          | .error e => .error e
          | .ok password => .ok (some ⟨username, password, true⟩, host)

/-- Go's `(*URL).setPath(p)`: the decoded path, and the raw path only when it is
not the default encoding of the decoded one. -/
def URL.setPath (u : URL) (p : Bytes) : Except URLErr URL :=
  match unescape p .encodePath with
  | .error e => .error e
  | .ok path =>
    .ok { u with Path := path, RawPath := if p = escape path .encodePath then [] else p }

/-- Go's `(*URL).setFragment(f)`. -/
def URL.setFragment (u : URL) (f : Bytes) : Except URLErr URL :=
  match unescape f .encodeFragment with
  | .error e => .error e
  | .ok frag =>
    .ok { u with
      Fragment := frag, RawFragment := if f = escape frag .encodeFragment then [] else f }

/-- Go's `(*URL).EscapedPath()`. -/
def URL.EscapedPath (u : URL) : Bytes :=
  if u.RawPath ≠ [] ∧ validEncoded u.RawPath .encodePath ∧
      unescape u.RawPath .encodePath = .ok u.Path then u.RawPath
  else if u.Path = [42] then [42]
  else escape u.Path .encodePath

/-- Go's `(*URL).EscapedFragment()`. -/
def URL.EscapedFragment (u : URL) : Bytes :=
  if u.RawFragment ≠ [] ∧ validEncoded u.RawFragment .encodeFragment ∧
      unescape u.RawFragment .encodeFragment = .ok u.Fragment then u.RawFragment
  else escape u.Fragment .encodeFragment

/-- Go's `url.parse(rawURL, viaRequest)` with `viaRequest = false`, the way
`url.Parse` calls it. -/
def parse (rawURL : Bytes) : Except URLErr URL :=
  if stringContainsCTLByte rawURL then .error .invalidControlCharacter
  else if rawURL = [42] then .ok { Path := [42] }
  else
    match getScheme rawURL with
    | .error e => .error e
    | .ok (scheme, rest) =>
      let scheme := toLowerASCII scheme
      let forceQuery := hasSuffix rest [63] && decide (rest.count 63 = 1)
      let rawQuery := if forceQuery then [] else (cut rest 63).2.1
      let rest := if forceQuery then rest.dropLast else (cut rest 63).1
      let url : URL := { Scheme := scheme, ForceQuery := forceQuery, RawQuery := rawQuery }
      if rest.head? ≠ some 47 ∧ scheme ≠ [] then .ok { url with Opaque := rest }
      else if rest.head? ≠ some 47 ∧ 58 ∈ (cut rest 47).1 then .error .firstPathSegmentColon
      else if (scheme ≠ [] ∨ ¬ [47, 47, 47].isPrefixOf rest) ∧ [47, 47].isPrefixOf rest then
        let authority := (cut (rest.drop 2) 47).1
        let rest := (rest.drop 2).drop authority.length
        match parseAuthority authority with
        | .error e => .error e
        | .ok (user, host) => URL.setPath { url with User := user, Host := host } rest
      else if scheme ≠ [] ∧ rest.head? = some 47 then
        URL.setPath { url with OmitHost := true } rest
      else URL.setPath url rest

/-- Go's `url.Error`: the operation, the text it was applied to and the cause. -/
structure URLError where
  Op : String
  URL : Bytes
  Err : URLErr
deriving DecidableEq, Repr

/-- Go's `url.Parse(rawURL)`: the fragment is cut off and set last. -/
def urlParse (rawURL : Bytes) : Except URLError URL :=
  let c := cut rawURL 35
  match parse c.1 with
  | .error e => .error ⟨"parse", c.1, e⟩
  | .ok url =>
    if c.2.1 = [] then .ok url
    else
      match URL.setFragment url c.2.1 with
      | .error e => .error ⟨"parse", rawURL, e⟩
      | .ok url => .ok url

/-- Go's `(*Userinfo).String()` for a non-nil receiver. -/
def Userinfo.String (u : Userinfo) : Bytes :=
  escape u.username .encodeUserPassword ++
    (if u.passwordSet then [58] ++ escape u.password .encodeUserPassword else [])

/-- Go's `(*URL).String()`. -/
def URL.String (u : URL) : Bytes :=
  let buf : Bytes := if u.Scheme ≠ [] then u.Scheme ++ [58] else []
  let buf :=
    if u.Opaque ≠ [] then buf ++ u.Opaque
    else
      let buf :=
        if u.Scheme ≠ [] ∨ u.Host ≠ [] ∨ u.User ≠ none then
          if u.OmitHost ∧ u.Host = [] ∧ u.User = none then buf
          else
            let buf := if u.Host ≠ [] ∨ u.Path ≠ [] ∨ u.User ≠ none then buf ++ [47, 47] else buf
            let buf :=
              match u.User with
              | some ui => buf ++ Userinfo.String ui ++ [64]
              | none => buf
            if u.Host ≠ [] then buf ++ escape u.Host .encodeHost else buf
        else buf
      let path := URL.EscapedPath u
      let buf := if path ≠ [] ∧ path.head? ≠ some 47 ∧ u.Host ≠ [] then buf ++ [47] else buf
      let buf := if buf.length = 0 ∧ 58 ∈ (cut path 47).1 then buf ++ [46, 47] else buf
      buf ++ path
  let buf := if u.ForceQuery ∨ u.RawQuery ≠ [] then buf ++ [63] ++ u.RawQuery else buf
  if u.Fragment ≠ [] then buf ++ [35] ++ URL.EscapedFragment u else buf

/-- The loop of Go's `url.resolvePath`: the elements between slashes, with `.`
dropped and `..` taking back the element before it.  `dst` is the text after the
leading slash that has been written. -/
def resolvePathLoop : Nat → Bytes → Bytes → Bool → Bytes
  | 0, _, dst, _ => [47] ++ dst
  | fuel + 1, remaining, dst, first =>
    let c := cut remaining 47
    let elem := c.1
    let found := c.2.2
    let next : Bytes × Bool :=
      if elem = [46] then (dst, false)
      else if elem = [46, 46] then
        match lastIndexByte dst 47 with
        | none => ([], true)
        | some index => (dst.take index, first)
      else ((if first then dst else dst ++ [47]) ++ elem, false)
    if found then resolvePathLoop fuel c.2.1 next.1 next.2
    else [47] ++ next.1 ++ (if elem = [46] ∨ elem = [46, 46] then [47] else [])

/-- Go's `url.resolvePath(base, ref)`. -/
def resolvePath (base ref : Bytes) : Bytes :=
  let full :=
    match ref with
    | [] => base
    | c :: _ =>
      if c ≠ 47 then
        (match lastIndexByte base 47 with
          | none => []
          | some i => base.take (i + 1)) ++ ref
      else ref
  if full = [] then []
  else
    let r := resolvePathLoop (full.length + 1) full [] true
    if r.length > 1 ∧ (r.drop 1).head? = some 47 then r.drop 1 else r

/-- Go's `(*URL).setPath` with the error ignored, as `ResolveReference` calls it. -/
def URL.setPathIgnoreError (u : URL) (p : Bytes) : URL :=
  match URL.setPath u p with
  | .error _ => u
  | .ok v => v

/-- Go's `(*URL).ResolveReference(ref)`. -/
def URL.ResolveReference (u ref : URL) : URL :=
  let url := if ref.Scheme = [] then { ref with Scheme := u.Scheme } else ref
  if ref.Scheme ≠ [] ∨ ref.Host ≠ [] ∨ ref.User ≠ none then
    URL.setPathIgnoreError url (resolvePath (URL.EscapedPath ref) [])
  else if ref.Opaque ≠ [] then { url with User := none, Host := [], Path := [] }
  else
    let url :=
      if ref.Path = [] ∧ ¬ ref.ForceQuery ∧ ref.RawQuery = [] then
        if ref.Fragment = [] then
          { url with RawQuery := u.RawQuery, Fragment := u.Fragment, RawFragment := u.RawFragment }
        else { url with RawQuery := u.RawQuery }
      else url
    if ref.Path = [] ∧ u.Opaque ≠ [] then
      { url with Opaque := u.Opaque, User := none, Host := [], Path := [] }
    else
      URL.setPathIgnoreError { url with Host := u.Host, User := u.User }
        (resolvePath (URL.EscapedPath u) (URL.EscapedPath ref))

/-- Go's `(*URL).Query()`: `ParseQuery` of the raw query, errors dropped. -/
def URL.Query (u : URL) : Values := (ParseQuery u.RawQuery).1


/-! ## Package `encoding/json`: reading one value -/

/-- What `(*json.Decoder).Decode` can answer besides success. -/
inductive JSONErr where
  | SyntaxError (msg : String)
  | ErrUnexpectedEOF
  | EOF
  | UnmarshalTypeError (value : String) (goType : String)
deriving DecidableEq, Repr

/-- A JSON value as the decoder walks it: numbers keep their literal text, strings
are unquoted, and every object member keeps the raw text of its value, because an
`Unmarshaler` is handed just that text. -/
inductive JValue where
  | null
  | bool (b : Bool)
  | num (tok : Bytes)
  | str (s : Bytes)
  | arr (items : List JValue)
  | obj (members : List (Bytes × Bytes × JValue))
deriving Repr

/-- Go's `json.isSpace`. -/
def isSpace (c : UInt8) : Bool := decide (c = 32 ∨ c = 9 ∨ c = 13 ∨ c = 10)

/-- The input after its leading white space. -/
def skipSpace : Bytes → Bytes
  | [] => []
  | c :: rest => if isSpace c then skipSpace rest else c :: rest

/-- The longest prefix of decimal digits, and what follows it. -/
def spanDigits : Bytes → Bytes × Bytes
  | [] => ([], [])
  | c :: rest =>
    if 48 ≤ c ∧ c ≤ 57 then
      let r := spanDigits rest
      (c :: r.1, r.2)
    else ([], c :: rest)

/-- The scanner states `stateE`, `stateESign`, `stateE0`: the exponent of a number,
after its `e`. -/
def scanExponent (input : Bytes) : Except JSONErr (Bytes × Bytes) :=
  let sign : Bytes :=
    match input with
    | c :: _ => if c = 43 ∨ c = 45 then [c] else []
    | [] => []
  let r := spanDigits (input.drop sign.length)
  if r.1 = [] then
    if r.2 = [] then .error .ErrUnexpectedEOF
    else .error (.SyntaxError "invalid character in exponent of numeric literal")
  else .ok (sign ++ r.1, r.2)

/-- The scanner states `state0`, `stateDot`, `stateDot0`: what may follow the integer
part of a number. -/
def scanFraction (input : Bytes) : Except JSONErr (Bytes × Bytes) :=
  match input with
  | 46 :: rest =>
    let r := spanDigits rest
    if r.1 = [] then
      if r.2 = [] then .error .ErrUnexpectedEOF
      else .error (.SyntaxError "invalid character after decimal point in numeric literal")
    else
      match r.2 with
      | c :: rest2 =>
        if c = 101 ∨ c = 69 then
          match scanExponent rest2 with
          | .error e => .error e
          | .ok (ex, rest3) => .ok (46 :: r.1 ++ c :: ex, rest3)
        else .ok (46 :: r.1, r.2)
      | [] => .ok (46 :: r.1, [])
  | c :: rest =>
    if c = 101 ∨ c = 69 then
      match scanExponent rest with
      | .error e => .error e
      | .ok (ex, rest2) => .ok (c :: ex, rest2)
    else .ok ([], c :: rest)
  | [] => .ok ([], [])

/-- The scanner states `stateNeg`, `state1`, `state0`: a number literal, from its
first byte (a minus sign or a digit), with the text that follows it. -/
def scanNumber (input : Bytes) : Except JSONErr (Bytes × Bytes) :=
  let sign : Bytes :=
    match input with
    | c :: _ => if c = 45 then [c] else []
    | [] => []
  match input.drop sign.length with
  | [] => .error .ErrUnexpectedEOF
  | c :: rest =>
    if c = 48 then
      match scanFraction rest with
      | .error e => .error e
      | .ok (f, rest2) => .ok (sign ++ c :: f, rest2)
    else if 49 ≤ c ∧ c ≤ 57 then
      let r := spanDigits rest
      match scanFraction r.2 with
      | .error e => .error e
      | .ok (f, rest2) => .ok (sign ++ c :: r.1 ++ f, rest2)
    else .error (.SyntaxError "invalid character in numeric literal")

/-- The scanner states `stateInString`, `stateInStringEsc` and `stateInStringEscU*`:
the text of a string literal after its opening quote, escapes still in place, and
what follows the closing quote. -/
def scanString : Bytes → Except JSONErr (Bytes × Bytes)
  | [] => .error .ErrUnexpectedEOF
  | c :: rest =>
    if c = 34 then .ok ([], rest)
    else if c = 92 then
      match rest with
      | [] => .error .ErrUnexpectedEOF
      | e :: rest2 =>
        if e ∈ [98, 102, 110, 114, 116, 92, 47, 34] then
          match scanString rest2 with
          | .error err => .error err
          | .ok (s, r) => .ok (c :: e :: s, r)
        else if e = 117 then
          match rest2 with
          | h1 :: h2 :: h3 :: h4 :: rest3 =>
            if ishex h1 ∧ ishex h2 ∧ ishex h3 ∧ ishex h4 then
              match scanString rest3 with
              | .error err => .error err
              | .ok (s, r) => .ok (c :: e :: h1 :: h2 :: h3 :: h4 :: s, r)
            else .error (.SyntaxError "invalid character in \\u hexadecimal character escape")
          | hs =>
            if hs.all ishex then .error .ErrUnexpectedEOF
            else .error (.SyntaxError "invalid character in \\u hexadecimal character escape")
        else .error (.SyntaxError "invalid character in string escape code")
    else if c < 32 then .error (.SyntaxError "invalid character in string literal")
    else
      match scanString rest with
      | .error err => .error err
      | .ok (s, r) => .ok (c :: s, r)

/-- The rest of one of the literals `true`, `false`, `null` after its first byte. -/
def scanWord : Bytes → Bytes → Except JSONErr Bytes
  | [], input => .ok input
  | _ :: _, [] => .error .ErrUnexpectedEOF
  | w :: ws, c :: rest =>
    if c = w then scanWord ws rest
    else .error (.SyntaxError "invalid character in literal")

/-- Go's `utf8.DecodeRune` as far as its size goes: the length of the well-formed
UTF-8 sequence at the head of the input, or 0 if there is none. -/
def utf8Size (s : Bytes) : Nat :=
  let cont (b : UInt8) : Bool := decide (128 ≤ b ∧ b ≤ 191)
  match s with
  | [] => 0
  | a :: rest =>
    if a < 128 then 1
    else
      match rest with
      | b :: rest2 =>
        if 194 ≤ a ∧ a ≤ 223 then (if cont b then 2 else 0)
        else
          match rest2 with
          | c :: rest3 =>
            if 224 ≤ a ∧ a ≤ 239 then
              if (if a = 224 then decide (160 ≤ b ∧ b ≤ 191)
                  else if a = 237 then decide (128 ≤ b ∧ b ≤ 159) else cont b) ∧ cont c
              then 3 else 0
            else
              match rest3 with
              | d :: _ =>
                if 240 ≤ a ∧ a ≤ 244 then
                  if (if a = 240 then decide (144 ≤ b ∧ b ≤ 191)
                      else if a = 244 then decide (128 ≤ b ∧ b ≤ 143) else cont b) ∧
                      cont c ∧ cont d
                  then 4 else 0
                else 0
              | [] => 0
          | [] => 0
      | [] => 0

/-- Go's `utf8.EncodeRune` on a code point (a surrogate or a value out of range is
encoded as U+FFFD). -/
def encodeRune (n : Nat) : Bytes :=
  if n < 0x80 then [UInt8.ofNat n]
  else if n < 0x800 then [UInt8.ofNat (0xC0 + n / 64), UInt8.ofNat (0x80 + n % 64)]
  else if (0xD800 ≤ n ∧ n ≤ 0xDFFF) ∨ n > 0x10FFFF then [239, 191, 189]
  else if n < 0x10000 then
    [UInt8.ofNat (0xE0 + n / 4096), UInt8.ofNat (0x80 + n / 64 % 64), UInt8.ofNat (0x80 + n % 64)]
  else
    [UInt8.ofNat (0xF0 + n / 262144), UInt8.ofNat (0x80 + n / 4096 % 64),
      UInt8.ofNat (0x80 + n / 64 % 64), UInt8.ofNat (0x80 + n % 64)]

/-- Go's `json.getu4`: the code unit of a `\uXXXX` at the head of the input. -/
def getu4 (s : Bytes) : Option Nat :=
  match s with
  | 92 :: 117 :: h1 :: h2 :: h3 :: h4 :: _ =>
    if ishex h1 ∧ ishex h2 ∧ ishex h3 ∧ ishex h4 then
      some ((unhex h1).toNat * 4096 + (unhex h2).toNat * 256 + (unhex h3).toNat * 16 +
        (unhex h4).toNat)
    else none
  | _ => none

/-- Go's `json.unquoteBytes` on the inside of a string literal that the scanner has
accepted: escapes are replaced, a surrogate pair becomes one code point, a lone
surrogate and every byte that is not well-formed UTF-8 become U+FFFD. -/
def unquote : Nat → Bytes → Bytes
  | 0, _ => []
  | _ + 1, [] => []
  | fuel + 1, c :: rest =>
    if c = 92 then
      match rest with
      | [] => []
      | e :: rest2 =>
        if e = 117 then
          match getu4 (c :: rest) with
          | none => []
          | some rr =>
            let rest3 := rest2.drop 4
            if 0xD800 ≤ rr ∧ rr < 0xE000 then
              match getu4 rest3 with
              | some rr1 =>
                if 0xD800 ≤ rr ∧ rr < 0xDC00 ∧ 0xDC00 ≤ rr1 ∧ rr1 < 0xE000 then
                  encodeRune ((rr - 0xD800) * 1024 + (rr1 - 0xDC00) + 0x10000) ++
                    unquote fuel (rest3.drop 6)
                else [239, 191, 189] ++ unquote fuel rest3
              | none => [239, 191, 189] ++ unquote fuel rest3
            else encodeRune rr ++ unquote fuel rest3
        else
          (if e = 98 then 8 else if e = 102 then 12 else if e = 110 then 10
            else if e = 114 then 13 else if e = 116 then 9 else e) :: unquote fuel rest2
    else if c < 128 then c :: unquote fuel rest
    else
      let size := utf8Size (c :: rest)
      if size = 0 then [239, 191, 189] ++ unquote fuel rest
      else (c :: rest).take size ++ unquote fuel (rest.drop (size - 1))

mutual

/-- One JSON value at the head of the input (white space skipped by the caller),
with the text that follows it.  `depth` counts the open arrays and objects, which
the scanner limits to 10000. -/
def scanValue : Nat → Nat → Bytes → Except JSONErr (JValue × Bytes)
  | 0, _, _ => .error (.SyntaxError "out of fuel")
  | fuel + 1, depth, input =>
    match input with
    | [] => .error .ErrUnexpectedEOF
    | c :: rest =>
      if c = 123 then
        if depth + 1 > 10000 then .error (.SyntaxError "exceeded max depth")
        else
          match skipSpace rest with
          | [] => .error .ErrUnexpectedEOF
          | d :: rest2 =>
            if d = 125 then .ok (.obj [], rest2)
            else
              match scanMembers fuel (depth + 1) (d :: rest2) with
              | .error e => .error e
              | .ok (ms, rest3) => .ok (.obj ms, rest3)
      else if c = 91 then
        if depth + 1 > 10000 then .error (.SyntaxError "exceeded max depth")
        else
          match skipSpace rest with
          | [] => .error .ErrUnexpectedEOF
          | d :: rest2 =>
            if d = 93 then .ok (.arr [], rest2)
            else
              match scanElements fuel (depth + 1) (d :: rest2) with
              | .error e => .error e
              | .ok (xs, rest3) => .ok (.arr xs, rest3)
      else if c = 34 then
        match scanString rest with
        | .error e => .error e
        | .ok (s, rest2) => .ok (.str (unquote (s.length + 1) s), rest2)
      else if c = 45 ∨ (48 ≤ c ∧ c ≤ 57) then
        match scanNumber input with
        | .error e => .error e
        | .ok (tok, rest2) => .ok (.num tok, rest2)
      else if c = 116 then
        match scanWord [114, 117, 101] rest with
        | .error e => .error e
        | .ok rest2 => .ok (.bool true, rest2)
      else if c = 102 then
        match scanWord [97, 108, 115, 101] rest with
        | .error e => .error e
        | .ok rest2 => .ok (.bool false, rest2)
      else if c = 110 then
        match scanWord [117, 108, 108] rest with
        | .error e => .error e
        | .ok rest2 => .ok (.null, rest2)
      else .error (.SyntaxError "invalid character looking for beginning of value")

/-- The members of an object from its first key on, up to and including the closing
brace. -/
def scanMembers : Nat → Nat → Bytes → Except JSONErr (List (Bytes × Bytes × JValue) × Bytes)
  | 0, _, _ => .error (.SyntaxError "out of fuel")
  | fuel + 1, depth, input =>
    match input with
    | [] => .error .ErrUnexpectedEOF
    | q :: rest =>
      if q ≠ 34 then
        .error (.SyntaxError "invalid character looking for beginning of object key string")
      else
        match scanString rest with
        | .error e => .error e
        | .ok (k, rest2) =>
          match skipSpace rest2 with
          | [] => .error .ErrUnexpectedEOF
          | colon :: rest3 =>
            if colon ≠ 58 then .error (.SyntaxError "invalid character after object key")
            else
              let vstart := skipSpace rest3
              match scanValue fuel depth vstart with
              | .error e => .error e
              | .ok (v, rest4) =>
                let raw := vstart.take (vstart.length - rest4.length)
                let member := (unquote (k.length + 1) k, raw, v)
                match skipSpace rest4 with
                | [] => .error .ErrUnexpectedEOF
                | d :: rest5 =>
                  if d = 125 then .ok ([member], rest5)
                  else if d = 44 then
                    match scanMembers fuel depth (skipSpace rest5) with
                    | .error e => .error e
                    | .ok (ms, rest6) => .ok (member :: ms, rest6)
                  else .error (.SyntaxError "invalid character after object key:value pair")

/-- The elements of an array from its first element on, up to and including the
closing bracket. -/
def scanElements : Nat → Nat → Bytes → Except JSONErr (List JValue × Bytes)
  | 0, _, _ => .error (.SyntaxError "out of fuel")
  | fuel + 1, depth, input =>
    match scanValue fuel depth input with
    | .error e => .error e
    | .ok (v, rest) =>
      match skipSpace rest with
      | [] => .error .ErrUnexpectedEOF
      | d :: rest2 =>
        if d = 93 then .ok ([v], rest2)
        else if d = 44 then
          match scanElements fuel depth (skipSpace rest2) with
          | .error e => .error e
          | .ok (xs, rest3) => .ok (v :: xs, rest3)
        else .error (.SyntaxError "invalid character after array element")

end

/-- The first JSON value of a stream, the way `(*json.Decoder).Decode` reads it:
leading white space is skipped, what follows the value is left unread, an empty
stream is `io.EOF` and a stream that ends inside the value `io.ErrUnexpectedEOF`.
The value has fewer nested parts than bytes, so twice the length is fuel enough. -/
def readValue (body : Bytes) : Except JSONErr (JValue × Bytes) :=
  let input := skipSpace body
  if input = [] then .error .EOF
  else
    match scanValue (2 * input.length + 2) 0 input with
    | .error e => .error e
    | .ok (v, rest) => .ok (v, input.take (input.length - rest.length))


/-! ## `float64` -/

/-- An IEEE 754 double: a finite value `(-1)^neg * mant * 2^exp` in normal form
(`mant < 2^53`, `exp ≥ -1074`, and `mant ≥ 2^52` unless `exp = -1074`), an
infinity or a NaN. -/
inductive Float64 where
  | finite (neg : Bool) (mant : Nat) (exp : Int)
  | inf (neg : Bool)
  | nan
deriving DecidableEq, Repr

/-- The zero value of `float64`. -/
def Float64.zero : Float64 := .finite false 0 (-1074)

/-- The position of the highest set bit, `⌊log₂ n⌋`, for `n > 0`. -/
def log2Fuel : Nat → Nat → Nat
  | 0, _ => 0
  | fuel + 1, n => if n ≥ 2 then log2Fuel fuel (n / 2) + 1 else 0

/-- The double nearest to `(-1)^neg * num / den`, ties to the even mantissa; an
infinity when the rounded value is out of range. -/
def roundFloat64 (neg : Bool) (num den : Nat) : Float64 :=
  if num = 0 ∨ den = 0 then .finite neg 0 (-1074)
  else
    let e0 : Int := (log2Fuel num num : Int) - (log2Fuel den den : Int)
    let ge : Bool :=
      if e0 ≥ 0 then decide (den * 2 ^ e0.toNat ≤ num) else decide (den ≤ num * 2 ^ (-e0).toNat)
    let e : Int := if ge then e0 else e0 - 1
    let q : Int := max (e - 52) (-1074)
    let n1 := if q ≥ 0 then num else num * 2 ^ (-q).toNat
    let d1 := if q ≥ 0 then den * 2 ^ q.toNat else den
    let m := n1 / d1
    let r := n1 % d1
    let m := if 2 * r > d1 ∨ (2 * r = d1 ∧ m % 2 = 1) then m + 1 else m
    let q := if m = 2 ^ 53 then q + 1 else q
    let m := if m = 2 ^ 53 then 2 ^ 52 else m
    if q > 971 then .inf neg else .finite neg m q

/-- Go's `strconv.ParseFloat(s, 64)` on decimal floating-point text (the only text a
JSON number can be): the nearest double, a range error when that is an infinity. -/
def ParseFloat (s : Bytes) : Except NumErrKind Float64 :=
  let neg := decide (s.head? = some 45)
  let s1 := if s.head? = some 45 ∨ s.head? = some 43 then s.tail else s
  let ip := spanDigits s1
  let fr : Bytes × Bytes :=
    match ip.2 with
    | c :: r => if c = 46 then spanDigits r else ([], c :: r)
    | [] => ([], [])
  if ip.1 = [] ∧ fr.1 = [] then .error .ErrSyntax
  else
    let hasExp : Bool :=
      match fr.2 with
      | c :: _ => decide (c = 101 ∨ c = 69)
      | [] => false
    let afterE := fr.2.drop 1
    let esign : Bytes :=
      match afterE with
      | c :: _ => if c = 43 ∨ c = 45 then [c] else []
      | [] => []
    let ed := spanDigits (afterE.drop esign.length)
    if (hasExp ∧ (ed.1 = [] ∨ ed.2 ≠ [])) ∨ (¬ hasExp ∧ fr.2 ≠ []) then .error .ErrSyntax
    else
      let digits := (ip.1 ++ fr.1).dropWhile (· = 48)
      let mant := digitsFrom 0 digits
      let ex : Int := if hasExp then (if esign = [45] then -(digitsFrom 0 ed.1 : Int)
        else (digitsFrom 0 ed.1 : Int)) else 0
      let e10 : Int := ex - fr.1.length
      if mant = 0 then .ok (.finite neg 0 (-1074))
      else if (digits.length : Int) + e10 > 310 then .error .ErrRange
      else if (digits.length : Int) + e10 < -330 then .ok (.finite neg 0 (-1074))
      else
        match roundFloat64 neg (if e10 ≥ 0 then mant * 10 ^ e10.toNat else mant)
            (if e10 ≥ 0 then 1 else 10 ^ (-e10).toNat) with
        | .inf _ => .error .ErrRange
        | f => .ok f

/-- The `float64` value of a decimal constant `(-1)^neg * num / den` of the Go
source: the nearest double. -/
def float64Const (neg : Bool) (num den : Nat) : Float64 := roundFloat64 neg num den

/-- The decimal digits of a number, most significant first (`0` is `"0"`). -/
def decimalDigits : Nat → Nat → Bytes
  | 0, _ => [48]
  | fuel + 1, n =>
    if n < 10 then [48 + UInt8.ofNat n]
    else decimalDigits fuel (n / 10) ++ [48 + UInt8.ofNat (n % 10)]

/-- Go's `strconv.Itoa` on a natural number. -/
def natToDecimal (n : Nat) : Bytes := decimalDigits n n

/-- The decimal text with six fractional digits of the number `(-1)^neg * q / 10^6`:
an optional minus sign, the integer part, a point and six digits. -/
def fixedPointText (neg : Bool) (q : Nat) : Bytes :=
  let f := q % 1000000
  (if neg then [45] else []) ++ natToDecimal (q / 1000000) ++ [46] ++
    [48 + UInt8.ofNat (f / 100000), 48 + UInt8.ofNat (f / 10000 % 10),
      48 + UInt8.ofNat (f / 1000 % 10), 48 + UInt8.ofNat (f / 100 % 10),
      48 + UInt8.ofNat (f / 10 % 10), 48 + UInt8.ofNat (f % 10)]

/-- The integer nearest to `m * 2^e * 10^6`, ties to the even one. -/
def scaledMillionths (m : Nat) (e : Int) : Nat :=
  let num := if e ≥ 0 then m * 2 ^ e.toNat * 1000000 else m * 1000000
  let den := if e ≥ 0 then 1 else 2 ^ (-e).toNat
  let q := num / den
  let r := num % den
  if 2 * r > den ∨ (2 * r = den ∧ q % 2 = 1) then q + 1 else q

/-- Go's `fmt.Sprintf("%f", x)`: the value rounded to six decimal places (ties to
even, on the exact binary value), and `NaN`, `+Inf`, `-Inf` for the values that
are not finite. -/
def formatF (x : Float64) : Bytes :=
  match x with
  | .nan => [78, 97, 78]
  | .inf false => [43, 73, 110, 102]
  | .inf true => [45, 73, 110, 102]
  | .finite neg m e => fixedPointText neg (scaledMillionths m e)


/-! ## The data model of `client.go` -/

/-- Every error value the package hands to its caller. -/
inductive Error where
  | num (e : NumError)
  | url (e : URLError)
  | json (e : JSONErr)
  | invalidMethod (method : Bytes)
  | encode (msg : Bytes)
  | transport (msg : Bytes)
deriving DecidableEq, Repr

/-- The zero value `time.Time{}`. -/
def Time.zero : Time := ⟨0, 0, .UTC⟩

/-- The struct `Coord`. -/
structure Coord where
  Lon : Float64 := Float64.zero
  Lat : Float64 := Float64.zero
deriving DecidableEq, Repr

/-- The struct `Weather`. -/
structure Weather where
  ID : Int := 0
  Main : Bytes := []
  Description : Bytes := []
  Icon : Bytes := []
deriving DecidableEq, Repr

/-- The struct `Main`. -/
structure Main where
  Temp : Float64 := Float64.zero
  Pressure : Int := 0
  Humidity : Int := 0
  TempMin : Float64 := Float64.zero
  TempMax : Float64 := Float64.zero
deriving DecidableEq, Repr

/-- The struct `Wind`. -/
structure Wind where
  Speed : Float64 := Float64.zero
  Deg : Int := 0
  Gust : Float64 := Float64.zero
deriving DecidableEq, Repr

/-- The struct `Clouds`. -/
structure Clouds where
  All : Int := 0
deriving DecidableEq, Repr

/-- The struct `Rain`.  The source declares it and uses it nowhere. -/
structure Rain where
  VolumeForLast3Hours : Int := 0
deriving DecidableEq, Repr

/-- The struct `Snow`. -/
structure Snow where
  VolumeForLast3Hours : Int := 0
deriving DecidableEq, Repr

/-- The struct `Sys`. -/
structure Sys where
  Country : Bytes := []
  Sunrise : Time := Time.zero
  Sunset : Time := Time.zero
deriving DecidableEq, Repr

/-- A Go slice as the decoder meets it: its elements (`none` for the nil slice), and
the elements its backing array still holds past its length, left there when an
earlier decode into the same slice cut it short.  A backing array holds zero
values everywhere else. -/
structure Slice (α : Type) where
  elems : Option (List α) := none
  spare : List α := []
deriving DecidableEq, Repr

/-- The struct `OpenWeatherMap`, field for field.  Its embedded structs all carry a
JSON name in their tag, so `encoding/json` treats each as one field of that name. -/
structure OpenWeatherMap where
  ID : Int := 0
  Name : Bytes := []
  DT : Time := Time.zero
  Visibility : Int := 0
  Coord : Coord := {}
  Weather : Slice Weather := {}
  Main : Main := {}
  Wind : Wind := {}
  Snow : Snow := {}
  Clouds : Clouds := {}
  Sys : Sys := {}
deriving DecidableEq, Repr

/-! ## Package `encoding/json`: storing a value into the data model -/

/-- The state of a decode under way: the target so far, the first type error
saved by `d.saveError` (decoding goes on after it), and the error of an
`UnmarshalJSON` method, which stops the decode at once. -/
abbrev Dec (α : Type) := α × Option JSONErr × Option NumError

/-- Go's `(*decodeState).saveError`: only the first error is kept. -/
def saveError (saved : Option JSONErr) (e : JSONErr) : Option JSONErr :=
  match saved with
  | none => some e
  | some s => some s

/-- The word `UnmarshalTypeError.Value` uses for a JSON value. -/
def JValue.kindName : JValue → String
  | .null => "null"
  | .bool _ => "bool"
  | .num _ => "number"
  | .str _ => "string"
  | .arr _ => "array"
  | .obj _ => "object"

/-- The walk of `foldName`; `skip` counts the bytes still to pass over of a rune that
has been replaced. -/
def foldNameFrom : Nat → Bytes → Bytes
  | _, [] => []
  | skip + 1, _ :: rest => foldNameFrom skip rest
  | 0, a :: rest =>
    if 97 ≤ a ∧ a ≤ 122 then (a - 32) :: foldNameFrom 0 rest
    else if a = 197 ∧ rest.take 1 = [191] then 83 :: foldNameFrom 1 rest
    else if a = 226 ∧ rest.take 2 = [132, 170] then 75 :: foldNameFrom 2 rest
    else a :: foldNameFrom 0 rest

/-- Go's `json.foldName` as far as names of ASCII letters go: ASCII letters are
upper-cased, and the two other runes whose case orbit holds an ASCII letter,
U+017F (long s) and U+212A (Kelvin sign), become `S` and `K`. -/
def foldName (s : Bytes) : Bytes := foldNameFrom 0 s

/-- Whether an object key selects the struct field of the given JSON name: by the
exact name, or else by the folded name. -/
def fieldMatch (key : Bytes) (name : String) : Bool :=
  decide (key = str name) || decide (foldName key = foldName (str name))

/-- A JSON value stored into a field of type `int`. -/
def decodeInt (v : JValue) (cur : Int) (saved : Option JSONErr) : Int × Option JSONErr :=
  match v with
  | .null => (cur, saved)
  | .num tok =>
    match ParseInt tok with
    | .ok n => (n, saved)
    | .error _ =>
      (cur, saveError saved
        (.UnmarshalTypeError ("number " ++ String.mk (tok.map fun b => Char.ofNat b.toNat)) "int"))
  | v => (cur, saveError saved (.UnmarshalTypeError v.kindName "int"))

/-- A JSON value stored into a field of type `float64`. -/
def decodeFloat (v : JValue) (cur : Float64) (saved : Option JSONErr) :
    Float64 × Option JSONErr :=
  match v with
  | .null => (cur, saved)
  | .num tok =>
    match ParseFloat tok with
    | .ok f => (f, saved)
    | .error _ =>
      (cur, saveError saved
        (.UnmarshalTypeError ("number " ++ String.mk (tok.map fun b => Char.ofNat b.toNat))
          "float64"))
  | v => (cur, saveError saved (.UnmarshalTypeError v.kindName "float64"))

/-- A JSON value stored into a field of type `string`. -/
def decodeString (v : JValue) (cur : Bytes) (saved : Option JSONErr) : Bytes × Option JSONErr :=
  match v with
  | .null => (cur, saved)
  | .str s => (s, saved)
  | v => (cur, saveError saved (.UnmarshalTypeError v.kindName "string"))

/-- A JSON value stored into a field of type `Time`: the type has an
`UnmarshalJSON` method on its pointer, so the raw text of the value, whatever it is
(`null` too), goes to that method. -/
def decodeTime (raw : Bytes) (cur : Time) : Time × Option NumError :=
  Time.UnmarshalJSON cur raw

/-- Go's `(*decodeState).object` on a struct: the members in order, each handed to
the field its key selects (`field` ignores a key that selects none); an error of
an `UnmarshalJSON` method ends the walk. -/
def decodeMembers {α : Type} (field : Bytes → Bytes → JValue → α → Option JSONErr → Dec α) :
    List (Bytes × Bytes × JValue) → α → Option JSONErr → Dec α
  | [], cur, saved => (cur, saved, none)
  | (k, raw, v) :: rest, cur, saved =>
    match field k raw v cur saved with
    | (cur1, saved1, some abort) => (cur1, saved1, some abort)
    | (cur1, saved1, none) => decodeMembers field rest cur1 saved1

/-- A JSON value stored into a struct without methods: an object fills the fields,
`null` changes nothing, every other value is a type error. -/
def decodeStruct {α : Type} (goType : String)
    (field : Bytes → Bytes → JValue → α → Option JSONErr → Dec α)
    (v : JValue) (cur : α) (saved : Option JSONErr) : Dec α :=
  match v with
  | .null => (cur, saved, none)
  | .obj members => decodeMembers field members cur saved
  | v => (cur, saveError saved (.UnmarshalTypeError v.kindName goType), none)

/-- The fields of `Coord`. -/
def Coord.field (key _raw : Bytes) (v : JValue) (cur : Coord) (saved : Option JSONErr) :
    Dec Coord :=
  if fieldMatch key "lon" then
    let r := decodeFloat v cur.Lon saved
    ({ cur with Lon := r.1 }, r.2, none)
  else if fieldMatch key "lat" then
    let r := decodeFloat v cur.Lat saved
    ({ cur with Lat := r.1 }, r.2, none)
  else (cur, saved, none)

/-- The fields of `Weather`. -/
def Weather.field (key _raw : Bytes) (v : JValue) (cur : Weather) (saved : Option JSONErr) :
    Dec Weather :=
  if fieldMatch key "id" then
    let r := decodeInt v cur.ID saved
    ({ cur with ID := r.1 }, r.2, none)
  else if fieldMatch key "main" then
    let r := decodeString v cur.Main saved
    ({ cur with Main := r.1 }, r.2, none)
  else if fieldMatch key "description" then
    let r := decodeString v cur.Description saved
    ({ cur with Description := r.1 }, r.2, none)
  else if fieldMatch key "icon" then
    let r := decodeString v cur.Icon saved
    ({ cur with Icon := r.1 }, r.2, none)
  else (cur, saved, none)

/-- The fields of `Main`. -/
def Main.field (key _raw : Bytes) (v : JValue) (cur : Main) (saved : Option JSONErr) :
    Dec Main :=
  if fieldMatch key "temp" then
    let r := decodeFloat v cur.Temp saved
    ({ cur with Temp := r.1 }, r.2, none)
  else if fieldMatch key "pressure" then
    let r := decodeInt v cur.Pressure saved
    ({ cur with Pressure := r.1 }, r.2, none)
  else if fieldMatch key "humidity" then
    let r := decodeInt v cur.Humidity saved
    ({ cur with Humidity := r.1 }, r.2, none)
  else if fieldMatch key "temp_min" then
    let r := decodeFloat v cur.TempMin saved
    ({ cur with TempMin := r.1 }, r.2, none)
  else if fieldMatch key "temp_max" then
    let r := decodeFloat v cur.TempMax saved
    ({ cur with TempMax := r.1 }, r.2, none)
  else (cur, saved, none)

/-- The fields of `Wind`. -/
def Wind.field (key _raw : Bytes) (v : JValue) (cur : Wind) (saved : Option JSONErr) :
    Dec Wind :=
  if fieldMatch key "speed" then
    let r := decodeFloat v cur.Speed saved
    ({ cur with Speed := r.1 }, r.2, none)
  else if fieldMatch key "deg" then
    let r := decodeInt v cur.Deg saved
    ({ cur with Deg := r.1 }, r.2, none)
  else if fieldMatch key "gust" then
    let r := decodeFloat v cur.Gust saved
    ({ cur with Gust := r.1 }, r.2, none)
  else (cur, saved, none)

/-- The field of `Clouds`. -/
def Clouds.field (key _raw : Bytes) (v : JValue) (cur : Clouds) (saved : Option JSONErr) :
    Dec Clouds :=
  if fieldMatch key "all" then
    let r := decodeInt v cur.All saved
    ({ cur with All := r.1 }, r.2, none)
  else (cur, saved, none)

/-- The field of `Snow`. -/
def Snow.field (key _raw : Bytes) (v : JValue) (cur : Snow) (saved : Option JSONErr) :
    Dec Snow :=
  if fieldMatch key "3h" then
    let r := decodeInt v cur.VolumeForLast3Hours saved
    ({ cur with VolumeForLast3Hours := r.1 }, r.2, none)
  else (cur, saved, none)

/-- The fields of `Sys`. -/
def Sys.field (key raw : Bytes) (v : JValue) (cur : Sys) (saved : Option JSONErr) : Dec Sys :=
  if fieldMatch key "country" then
    let r := decodeString v cur.Country saved
    ({ cur with Country := r.1 }, r.2, none)
  else if fieldMatch key "sunrise" then
    let r := decodeTime raw cur.Sunrise
    ({ cur with Sunrise := r.1 }, saved, r.2)
  else if fieldMatch key "sunset" then
    let r := decodeTime raw cur.Sunset
    ({ cur with Sunset := r.1 }, saved, r.2)
  else (cur, saved, none)

/-- The loop of Go's `(*decodeState).array` on a `[]Weather`: element `i` of the JSON
array is decoded into element `i` of the backing array (the elements of the slice,
then what the array holds past them), into a zero element where the array ends.
The answer lists the elements decoded. -/
def decodeWeatherElems : List JValue → List Weather → Option JSONErr → Dec (List Weather)
  | [], _, saved => ([], saved, none)
  | x :: xs, backing, saved =>
    match decodeStruct "owm.Weather" Weather.field x (backing.head?.getD {}) saved with
    | (w, saved1, some abort) => ([w], saved1, some abort)
    | (w, saved1, none) =>
      let r := decodeWeatherElems xs backing.tail saved1
      (w :: r.1, r.2.1, r.2.2)

/-- A JSON value stored into the field `Weather []Weather`.  An array is decoded
element by element over the backing array, and the slice is then cut to the number
of elements read (`v.SetLen(i)`), what lies behind staying in the array; an empty
array makes a new empty slice and `null` the nil slice.  Should an element stop the
decode, the slice keeps the length it has reached. -/
def decodeWeatherSlice (v : JValue) (cur : Slice Weather) (saved : Option JSONErr) :
    Dec (Slice Weather) :=
  match v with
  | .null => ({}, saved, none)
  | .arr items =>
    let old := cur.elems.getD []
    let backing := old ++ cur.spare
    let r := decodeWeatherElems items backing saved
    if items.isEmpty then ({ elems := some [], spare := [] }, saved, none)
    else
      match r.2.2 with
      | none => ({ elems := some r.1, spare := backing.drop r.1.length }, r.2.1, none)
      | some abort =>
        ({ elems := some (r.1 ++ old.drop r.1.length),
           spare := backing.drop (max old.length r.1.length) }, r.2.1, some abort)
  | v => (cur, saveError saved (.UnmarshalTypeError v.kindName "[]owm.Weather"), none)

/-- The fields of `OpenWeatherMap`.  There is no field for the key `rain`. -/
def OpenWeatherMap.field (key raw : Bytes) (v : JValue) (cur : OpenWeatherMap)
    (saved : Option JSONErr) : Dec OpenWeatherMap :=
  if fieldMatch key "id" then
    let r := decodeInt v cur.ID saved
    ({ cur with ID := r.1 }, r.2, none)
  else if fieldMatch key "name" then
    let r := decodeString v cur.Name saved
    ({ cur with Name := r.1 }, r.2, none)
  else if fieldMatch key "dt" then
    let r := decodeTime raw cur.DT
    ({ cur with DT := r.1 }, saved, r.2)
  else if fieldMatch key "visibility" then
    let r := decodeInt v cur.Visibility saved
    ({ cur with Visibility := r.1 }, r.2, none)
  else if fieldMatch key "coord" then
    let r := decodeStruct "owm.Coord" Coord.field v cur.Coord saved
    ({ cur with Coord := r.1 }, r.2.1, r.2.2)
  else if fieldMatch key "weather" then
    let r := decodeWeatherSlice v cur.Weather saved
    ({ cur with Weather := r.1 }, r.2.1, r.2.2)
  else if fieldMatch key "main" then
    let r := decodeStruct "owm.Main" Main.field v cur.Main saved
    ({ cur with Main := r.1 }, r.2.1, r.2.2)
  else if fieldMatch key "wind" then
    let r := decodeStruct "owm.Wind" Wind.field v cur.Wind saved
    ({ cur with Wind := r.1 }, r.2.1, r.2.2)
  else if fieldMatch key "snow" then
    let r := decodeStruct "owm.Snow" Snow.field v cur.Snow saved
    ({ cur with Snow := r.1 }, r.2.1, r.2.2)
  else if fieldMatch key "clouds" then
    let r := decodeStruct "owm.Clouds" Clouds.field v cur.Clouds saved
    ({ cur with Clouds := r.1 }, r.2.1, r.2.2)
  else if fieldMatch key "sys" then
    let r := decodeStruct "owm.Sys" Sys.field v cur.Sys saved
    ({ cur with Sys := r.1 }, r.2.1, r.2.2)
  else (cur, saved, none)

/-- Go's `json.NewDecoder(r).Decode(v)` for `v` of type `*OpenWeatherMap`, on the
bytes that `r` holds: the first JSON value of the stream is checked for syntax and
then stored into the target.  The answer is the target afterwards and the error:
the error of an `UnmarshalJSON` method if one stopped the decode, else the first
type error saved. -/
def decodeOpenWeatherMap (body : Bytes) (cur : OpenWeatherMap) : OpenWeatherMap × Option Error :=
  match readValue body with
  | .error e => (cur, some (.json e))
  | .ok (v, _) =>
    match decodeStruct "owm.OpenWeatherMap" OpenWeatherMap.field v cur none with
    | (t, _, some abort) => (t, some (.num abort))
    | (t, some e, none) => (t, some (.json e))
    | (t, none, none) => (t, none)


/-! ## Package `net/http`: requests -/

/-- Go's `http.Header`, a `map[string][]string`, as an association list in which
every key occurs once. -/
abbrev Header := List (Bytes × List Bytes)

/-- A byte of an HTTP token (`httpguts.IsTokenRune`, `textproto.validHeaderFieldByte`). -/
def isTokenByte (c : UInt8) : Bool :=
  isAlnum c || decide (c ∈ [33, 35, 36, 37, 38, 39, 42, 43, 45, 46, 94, 95, 96, 124, 126])

/-- The walk of `canonicalMIMEHeaderKey`: upper case at the start and after each
dash, lower case elsewhere. -/
def canonicalFrom : Bool → Bytes → Bytes
  | _, [] => []
  | upper, c :: rest =>
    let c1 := if upper ∧ 97 ≤ c ∧ c ≤ 122 then c - 32
      else if ¬ upper ∧ 65 ≤ c ∧ c ≤ 90 then c + 32 else c
    c1 :: canonicalFrom (decide (c1 = 45)) rest

/-- Go's `textproto.CanonicalMIMEHeaderKey`: a key with a byte that is not a token
byte is left as it is. -/
def CanonicalMIMEHeaderKey (s : Bytes) : Bytes :=
  if s.all isTokenByte then canonicalFrom true s else s

/-- The map write `h[key] = values`. -/
def Header.put (h : Header) (key : Bytes) (values : List Bytes) : Header :=
  match h with
  | [] => [(key, values)]
  | (k, vs) :: rest => if k = key then (k, values) :: rest else (k, vs) :: Header.put rest key values

/-- Go's `Header.Set(key, value)`. -/
def Header.Set (h : Header) (key value : Bytes) : Header :=
  Header.put h (CanonicalMIMEHeaderKey key) [value]

/-- The map read `h[key]`; a missing key reads as `none`. -/
def Header.lookup (h : Header) (key : Bytes) : Option (List Bytes) :=
  match h with
  | [] => none
  | (k, vs) :: rest => if k = key then some vs else Header.lookup rest key

/-- Go's `http.Request`, the fields `NewRequest` sets; `Body` is `none` for a nil
body. -/
structure Request where
  Method : Bytes
  URL : URL
  Header : Header
  Body : Option Bytes
  ContentLength : Int
  Host : Bytes
deriving DecidableEq, Repr

/-- Go's `http.Response`, as far as the package looks at it or could look at it. -/
structure Response where
  StatusCode : Nat
  Body : Bytes
deriving DecidableEq, Repr

/-- Go's `http.validMethod`. -/
def validMethod (method : Bytes) : Bool := decide (method.length > 0) && method.all isTokenByte

/-- Go's `http.removeEmptyPort`. -/
def removeEmptyPort (host : Bytes) : Bytes :=
  let hasPort : Bool :=
    match lastIndexByte host 58, lastIndexByte host 93 with
    | some i, some j => decide (i > j)
    | some _, none => true
    | none, _ => false
  if hasPort ∧ hasSuffix host [58] then host.dropLast else host

/-- Go's `http.NewRequest(method, url, body)` with a body that is nil or a
`*bytes.Buffer`. -/
def NewRequest (method url : Bytes) (body : Option Bytes) : Except Error Request :=
  let method := if method = [] then str "GET" else method
  if ! validMethod method then .error (.invalidMethod method)
  else
    match urlParse url with
    | .error e => .error (.url e)
    | .ok u =>
      let u := { u with Host := removeEmptyPort u.Host }
      .ok {
        Method := method, URL := u, Header := [], Body := body,
        ContentLength := match body with
          | none => 0
          | some b => b.length,
        Host := u.Host }

/-! ## The client of `client.go` -/

/-- The constant `defaultBaseURL`. -/
def defaultBaseURL : Bytes := str "https://api.openweathermap.org/data/2.5"

/-- The constant `version`. -/
def version : Bytes := str "0.1"

/-- The constant `defaultUserAgent`. -/
def defaultUserAgent : Bytes := str "bike-barometer/" ++ version

/-- The constant `defaultTimeout`, in nanoseconds. -/
def defaultTimeout : Nat := 1000000000 * 60

/-- Go's `http.Client`, as far as the package configures it. -/
structure HTTPClient where
  Timeout : Nat
deriving DecidableEq, Repr

/-- The struct `Client`; `httpClient` is its embedded `*http.Client`. -/
structure Client where
  httpClient : HTTPClient
  BaseURL : Bytes
  UserAgent : Bytes
  key : Bytes
deriving DecidableEq, Repr

/-- The function `New`. -/
def New (key : Bytes) : Client :=
  { httpClient := { Timeout := defaultTimeout },
    BaseURL := defaultBaseURL,
    UserAgent := defaultUserAgent,
    key := key }

/-- The outside world of `(*http.Client).Do`: what comes back for a request that is
sent, a response or a transport error. -/
abbrev Network := Request → Except Bytes Response

/-- The function `encodeJSON`.  The body is any Go value, or `none` for the nil
interface; `enc` stands for `json.NewEncoder(buf).Encode`, which writes the JSON
text of the value and a newline into the buffer or fails. -/
def encodeJSON {β : Type} (enc : β → Except Bytes Bytes) (body : Option β) :
    Except Error (Option Bytes) :=
  match body with
  | none => .ok none
  | some b =>
    match enc b with
    | .error msg => .error (.encode msg)
    | .ok buf => .ok (some buf)

/-- The method `Client.Request`. -/
def Client.Request {β : Type} (enc : β → Except Bytes Bytes) (c : Client) (method path : Bytes)
    (body : Option β) : Except Error Request :=
  match urlParse c.BaseURL with
  | .error err => .error (.url err)
  | .ok baseURL =>
    let rel : URL := { Path := path }
    let u := URL.ResolveReference baseURL rel
    match encodeJSON enc body with
    | .error err => .error err
    | .ok buf =>
      match NewRequest method (URL.String u) buf with
      | .error err => .error err
      | .ok req =>
        let req := { req with Header := Header.Set req.Header (str "Accept") (str "application/json") }
        let req :=
          if c.UserAgent ≠ [] then
            { req with Header := Header.Set req.Header (str "User-Agent") c.UserAgent }
          else req
        let req :=
          if body.isSome then
            { req with
              Header := Header.Set req.Header (str "Content-Type") (str "application/json") }
          else req
        .ok req

/-- What a call of `Client.Do` leaves behind: the response and the error it
returns, the target `v` afterwards, and the requests that went out. -/
structure DoResult (τ : Type) where
  res : Option Response
  err : Option Error
  target : τ
  sent : List Request

/-- The method `Client.Do`.  `decode` stands for `json.NewDecoder(res.Body).Decode(v)`
at the type of the target `v`. -/
def Client.Do {τ : Type} (net : Network) (decode : Bytes → τ → τ × Option Error)
    (_c : Client) (req : Owm.Request) (v : τ) : DoResult τ :=
  match net req with
  | .error err => { res := none, err := some (.transport err), target := v, sent := [req] }
  | .ok res =>
    let r := decode res.Body v
    { res := some res, err := r.2, target := r.1, sent := [req] }

/-- The body type of a request without a body. -/
abbrev NoBody := Empty

/-- The encoder handed to `Client.Request` when the body is nil. -/
def noEncoder : NoBody → Except Bytes Bytes := fun b => nomatch b

/-- The method `Client.ByCityName`: the report or the error, and the requests that
went out to the network. -/
def Client.ByCityName (net : Network) (c : Client) (city : Bytes) :
    Except Error OpenWeatherMap × List Owm.Request :=
  match Client.Request noEncoder c (str "GET") (str "/weather") none with
  | .error err => (.error err, [])
  | .ok req =>
    let query := URL.Query req.URL
    let query := Values.Add query (str "q") city
    let query := Values.Add query (str "APPID") c.key
    let req := { req with URL := { req.URL with RawQuery := Values.Encode query } }
    let weather : OpenWeatherMap := {}
    let r := Client.Do net decodeOpenWeatherMap c req weather
    match r.err with
    | some err => (.error err, r.sent)
    | none => (.ok r.target, r.sent)

/-- The method `Client.ByZip`. -/
def Client.ByZip (net : Network) (c : Client) (zip : Bytes) :
    Except Error OpenWeatherMap × List Owm.Request :=
  match Client.Request noEncoder c (str "GET") (str "/weather") none with
  | .error err => (.error err, [])
  | .ok req =>
    let query := URL.Query req.URL
    let query := Values.Add query (str "zip") zip
    let query := Values.Add query (str "APPID") c.key
    let req := { req with URL := { req.URL with RawQuery := Values.Encode query } }
    let weather : OpenWeatherMap := {}
    let r := Client.Do net decodeOpenWeatherMap c req weather
    match r.err with
    | some err => (.error err, r.sent)
    | none => (.ok r.target, r.sent)

/-- The method `Client.ByCoordinates`. -/
def Client.ByCoordinates (net : Network) (c : Client) (lat lon : Float64) :
    Except Error OpenWeatherMap × List Owm.Request :=
  match Client.Request noEncoder c (str "GET") (str "/weather") none with
  | .error err => (.error err, [])
  | .ok req =>
    let query := URL.Query req.URL
    let query := Values.Add query (str "lat") (formatF lat)
    let query := Values.Add query (str "lon") (formatF lon)
    let query := Values.Add query (str "APPID") c.key
    let req := { req with URL := { req.URL with RawQuery := Values.Encode query } }
    let weather : OpenWeatherMap := {}
    let r := Client.Do net decodeOpenWeatherMap c req weather
    match r.err with
    | some err => (.error err, r.sent)
    | none => (.ok r.target, r.sent)

/-! ## The three lookups as one -/

/-- The query part the three lookups share: the request with the given parameters
added to the query of its URL, in the order of the `query.Add` calls. -/
def withQuery (req : Request) (params : List (Bytes × Bytes)) : Request :=
  let query := params.foldl (fun q p => Values.Add q p.1 p.2) (URL.Query req.URL)
  { req with URL := { req.URL with RawQuery := Values.Encode query } }

/-- The tail every lookup shares: `c.Do(req, &weather)` on a zero-valued report, and
the report or the error.  The second component lists the requests that went out. -/
def doLookup (net : Network) (c : Client) (req : Request) :
    Except Error OpenWeatherMap × List Request :=
  let r := Client.Do net decodeOpenWeatherMap c req ({} : OpenWeatherMap)
  match r.err with
  | some err => (.error err, r.sent)
  | none => (.ok r.target, r.sent)


/-! ## The reference document of the tests -/

/-- The response body all three tests of `client_test.go` serve. -/
def referenceDocument : Bytes :=
  str ("\x7b\"coord\":\x7b\"lon\":-97.74,\"lat\":30.27\x7d,\"weather\":[\x7b\"id\":800," ++
    "\"main\":\"Clear\",\"description\":\"clear sky\",\"icon\":\"01d\"\x7d],\"base\":\"stations\"," ++
    "\"main\":\x7b\"temp\":296.82,\"pressure\":1012,\"humidity\":25,\"temp_min\":296.15," ++
    "\"temp_max\":298.15\x7d,\"visibility\":11265,\"wind\":\x7b\"speed\":6.2,\"deg\":200," ++
    "\"gust\":9.3\x7d,\"clouds\":\x7b\"all\":1\x7d,\"dt\":1511561700,\"sys\":\x7b\"type\":1," ++
    "\"id\":2557,\"message\":0.1722,\"country\":\"US\",\"sunrise\":1511528705," ++
    "\"sunset\":1511566248\x7d,\"id\":4671654,\"name\":\"Austin\",\"cod\":200\x7d")

/-- The value `expect` of the tests of `client_test.go`.  Each `float64` field is
written out as the double its Go constant denotes, sign, mantissa and binary
exponent: `-97.74` is `-6877841055924879 * 2^-46`, and so on. -/
def expect : OpenWeatherMap :=
  { Coord :=
      { Lon := .finite true 6877841055924879 (-46),
        Lat := .finite false 8520247545031557 (-48) },
    Weather := { elems := some [
      { ID := 800,
        Main := str "Clear",
        Description := str "clear sky",
        Icon := str "01d" }] },
    Main :=
      { Temp := .finite false 5221712661703557 (-44),
        Pressure := 1012,
        Humidity := 25,
        TempMin := .finite false 5209925897053798 (-44),
        TempMax := .finite false 5245110269142630 (-44) },
    Visibility := 11265,
    Wind :=
      { Speed := .finite false 6980579422424269 (-50),
        Deg := 200,
        Gust := .finite false 5235434566818202 (-49) },
    Clouds := { All := 1 },
    DT := timeUnix 1511561700 0,
    Sys :=
      { Country := str "US",
        Sunrise := timeUnix 1511528705 0,
        Sunset := timeUnix 1511566248 0 },
    ID := 4671654,
    Name := str "Austin" }

/-- Whether a `float64` is the double nearest to the decimal number
`(-1)^neg * num / den`, stated from what a double is: a finite value of that sign
whose mantissa lies strictly inside its binade (so the doubles next to it are one
unit in the last place away, on both sides) and whose distance from the number is
less than half that unit. -/
def isNearestDouble (neg : Bool) (num den : Nat) : Float64 → Bool
  | .finite n m e =>
    decide (n = neg) && decide (2 ^ 52 < m) && decide (m < 2 ^ 53) &&
      decide (-1074 ≤ e) && decide (e ≤ 971) &&
      (if 0 ≤ e then
        decide (2 * Int.natAbs ((m * 2 ^ e.toNat * den : Nat) - (num : Int)) < 2 ^ e.toNat * den)
      else
        decide (2 * Int.natAbs ((m * den : Nat) - ((num * 2 ^ (-e).toNat : Nat) : Int)) < den))
  | _ => false


/-! ## Inputs used by the theorems -/

/-- A response body that carries a rain volume `r` and a snow volume `s`:
`{"rain":{"3h":r},"snow":{"3h":s}}`. -/
def precipitationDocument (r s : Nat) : Bytes :=
  str "\x7b\"rain\":\x7b\"3h\":" ++ natToDecimal r ++ str "\x7d,\"snow\":\x7b\"3h\":" ++
    natToDecimal s ++ str "\x7d\x7d"

/-- The body of an error answer of the service:
`{"cod":401,"message":"Invalid API key"}`. -/
def errorDocument : Bytes := str "\x7b\"cod\":401,\"message\":\"Invalid API key\"\x7d"

/-- The JSON names of the fields of `OpenWeatherMap`. -/
def reportKeys : List String :=
  ["id", "name", "dt", "visibility", "coord", "weather", "main", "wind", "snow", "clouds", "sys"]

/-- An object key that is none of the report's keys whatever the case of its
letters, stated without the decoder: every byte of the key is ASCII, and the key in
lower case is none of the JSON names of the report's fields. -/
def keyOutsideReport (key : Bytes) : Bool :=
  key.all (fun b => decide (b < 128)) && reportKeys.all (fun name => toLowerASCII key != str name)

/-- A body whose keys are report keys in upper case: `{"ID":5,"NAME":"x"}`. -/
def upperCaseDocument : Bytes := str "\x7b\"ID\":5,\"NAME\":\"x\"\x7d"

/-- A body whose one key is `sys` written with the letter U+017F (long s). -/
def longSDocument : Bytes := str "\x7b\"\u017fys\":5\x7d"

/-- A network that answers every request with the same status code and body. -/
def constNetwork (status : Nat) (body : Bytes) : Network := fun _ => .ok ⟨status, body⟩

/-- The request `Request("GET", "/weather", nil)` builds on a client made by `New`. -/
def defaultWeatherRequest : Request :=
  { Method := str "GET",
    URL := { Scheme := str "https", Host := str "api.openweathermap.org", Path := str "/weather" },
    Header := [(str "Accept", [str "application/json"]),
      (str "User-Agent", [str "bike-barometer/0.1"])],
    Body := none,
    ContentLength := 0,
    Host := str "api.openweathermap.org" }

/-- Whether a `float64` is a finite number. -/
def Float64.isFinite : Float64 → Bool
  | .finite _ _ _ => true
  | _ => false

/-- What the specification calls the fixed-point decimal text, with six fractional
digits, of a `float64`: the value is finite, and the text is that of a number of
millionths `q` that lies within half a millionth of it. -/
def IsFixedPointTextOf (x : Float64) (txt : Bytes) : Prop :=
  ∃ (neg : Bool) (m : Nat) (e : Int) (q : Nat),
    x = .finite neg m e ∧ txt = fixedPointText neg q ∧
      (0 ≤ e → q = m * 2 ^ e.toNat * 1000000) ∧
      (e < 0 → 2 * (q * 2 ^ (-e).toNat) ≤ 2 * (m * 1000000) + 2 ^ (-e).toNat ∧
        2 * (m * 1000000) ≤ 2 * (q * 2 ^ (-e).toNat) + 2 ^ (-e).toNat)


/-! # Theorems -/

/-! ## Facts about single bytes -/

set_option maxRecDepth 1000000 in
theorem byte_digit_cases : ∀ n : Fin 256,
    (isDigit (UInt8.mk (BitVec.ofFin n)) = true → (48 ≤ (UInt8.mk (BitVec.ofFin n)) ∧ (UInt8.mk (BitVec.ofFin n)) ≤ 57) ∧ ¬ ((UInt8.mk (BitVec.ofFin n)) - 48 > 9) ∧
        ((UInt8.mk (BitVec.ofFin n)) - 48).toNat = (UInt8.mk (BitVec.ofFin n)).toNat - 48 ∧ (UInt8.mk (BitVec.ofFin n)).toNat - 48 ≤ 9 ∧
        (UInt8.mk (BitVec.ofFin n)) ≠ 45 ∧ (UInt8.mk (BitVec.ofFin n)) ≠ 43) ∧
    (isDigit (UInt8.mk (BitVec.ofFin n)) = false → ¬ (48 ≤ (UInt8.mk (BitVec.ofFin n)) ∧ (UInt8.mk (BitVec.ofFin n)) ≤ 57) ∧ ((UInt8.mk (BitVec.ofFin n)) - 48 > 9)) := by
  decide

theorem digit_facts (c : UInt8) (h : isDigit c = true) :
    (48 ≤ c ∧ c ≤ 57) ∧ ¬ (c - 48 > 9) ∧ (c - 48).toNat = c.toNat - 48 ∧ c.toNat - 48 ≤ 9 ∧
      c ≠ 45 ∧ c ≠ 43 := by
  rcases c with ⟨⟨n⟩⟩
  exact (byte_digit_cases n).1 h

theorem nondigit_facts (c : UInt8) (h : isDigit c = false) :
    ¬ (48 ≤ c ∧ c ≤ 57) ∧ (c - 48 > 9) := by
  rcases c with ⟨⟨n⟩⟩
  exact (byte_digit_cases n).2 h

theorem wrapInt64_id (x : Int) (h1 : -9223372036854775808 ≤ x) (h2 : x < 9223372036854775808) :
    wrapInt64 x = x := by
  unfold wrapInt64
  norm_num
  omega

theorem digitsFrom_ge (ds : Bytes) : ∀ n, n ≤ digitsFrom n ds := by
  induction ds with
  | nil => intro n; simp [digitsFrom]
  | cons c ds ih =>
    intro n
    have := ih (n * 10 + (c.toNat - 48))
    simp only [digitsFrom, List.foldl_cons] at this ⊢
    omega

theorem digitsFrom_cons (n : Nat) (c : UInt8) (ds : Bytes) :
    digitsFrom n (c :: ds) = digitsFrom (n * 10 + (c.toNat - 48)) ds := rfl

theorem digitsFrom_lt (ds : Bytes) (hd : ds.all isDigit = true) :
    ∀ n k, n < 10 ^ k → digitsFrom n ds < 10 ^ (k + ds.length) := by
  induction ds with
  | nil => intro n k h; simpa [digitsFrom] using h
  | cons c ds ih =>
    intro n k h
    simp only [List.all_cons, Bool.and_eq_true] at hd
    have hc := (digit_facts c hd.1).2.2.2.1
    rw [digitsFrom_cons]
    have h2 : n * 10 + (c.toNat - 48) < 10 ^ (k + 1) := by
      rw [pow_succ]; omega
    have := ih hd.2 _ _ h2
    simpa [Nat.add_assoc, Nat.add_comm 1] using this


theorem parseUintLoop_digits (ds : Bytes) (hd : ds.all isDigit = true) :
    ∀ n, n < 18446744073709551616 →
      parseUintLoop ds n =
        if digitsFrom n ds < 18446744073709551616 then .ok (digitsFrom n ds)
        else .error .ErrRange := by
  induction ds with
  | nil => intro n hn; simp [parseUintLoop, digitsFrom, hn]
  | cons c ds ih =>
    intro n hn
    simp only [List.all_cons, Bool.and_eq_true] at hd
    obtain ⟨hr, _, hsub, hle, _, _⟩ := digit_facts c hd.1
    rw [digitsFrom_cons]
    have hge := digitsFrom_ge ds (n * 10 + (c.toNat - 48))
    unfold parseUintLoop
    simp only [hr, and_self, if_true, hsub, maxUint64]
    norm_num
    by_cases h1 : 1844674407370955162 ≤ n
    · have : ¬ digitsFrom (n * 10 + (c.toNat - 48)) ds < 18446744073709551616 := by omega
      simp [h1, this]
    · have e10 : n * 10 % 18446744073709551616 = n * 10 := by omega
      simp only [h1, if_false, e10]
      by_cases h2 : n * 10 + (c.toNat - 48) < 18446744073709551616
      · have e1 : (n * 10 + (c.toNat - 48)) % 18446744073709551616 = n * 10 + (c.toNat - 48) := by
          omega
        rw [e1, ih hd.2 _ h2]
        have : ¬ (n * 10 + (c.toNat - 48) < n * 10 ∨
            18446744073709551615 < n * 10 + (c.toNat - 48)) := by omega
        rw [if_neg this]
      · have : ¬ digitsFrom (n * 10 + (c.toNat - 48)) ds < 18446744073709551616 := by omega
        have h3 : (n * 10 + (c.toNat - 48)) % 18446744073709551616 < n * 10 ∨
            18446744073709551615 < (n * 10 + (c.toNat - 48)) % 18446744073709551616 := by omega
        simp [this, h3]

theorem parseUintLoop_nondigit (ds : Bytes) (hd : ds.all isDigit = false) :
    ∀ n, ∃ e, parseUintLoop ds n = .error e := by
  induction ds with
  | nil => simp at hd
  | cons c ds ih =>
    intro n
    unfold parseUintLoop
    cases hc : isDigit c with
    | false =>
      have := (nondigit_facts c hc).1
      simp [this]
    | true =>
      have hr := (digit_facts c hc).1
      simp only [List.all_cons, hc, Bool.true_and] at hd
      simp only [hr, and_self, if_true]
      split
      · exact ⟨_, rfl⟩
      · split
        · exact ⟨_, rfl⟩
        · exact ih hd _

theorem atoiFast_digits (ds : Bytes) (hd : ds.all isDigit = true) :
    ∀ n : Nat, digitsFrom n ds < 9223372036854775808 →
      atoiFast ds (n : Int) = some ((digitsFrom n ds : Nat) : Int) := by
  induction ds with
  | nil => intro n _; simp [atoiFast, digitsFrom]
  | cons c ds ih =>
    intro n hn
    simp only [List.all_cons, Bool.and_eq_true] at hd
    obtain ⟨_, hgt, hsub, hle, _, _⟩ := digit_facts c hd.1
    rw [digitsFrom_cons] at hn ⊢
    have hge := digitsFrom_ge ds (n * 10 + (c.toNat - 48))
    unfold atoiFast
    simp only [hgt, if_false, hsub]
    have : wrapInt64 ((n : Int) * 10 + ((c.toNat - 48 : Nat) : Int)) =
        ((n * 10 + (c.toNat - 48) : Nat) : Int) := by
      rw [wrapInt64_id] <;> push_cast <;> omega
    rw [this]
    exact ih hd.2 _ hn

theorem atoiFast_nondigit (ds : Bytes) (hd : ds.all isDigit = false) :
    ∀ n, atoiFast ds n = none := by
  induction ds with
  | nil => simp at hd
  | cons c ds ih =>
    intro n
    unfold atoiFast
    cases hc : isDigit c with
    | false =>
      have := (nondigit_facts c hc).2
      simp [this]
    | true =>
      have hgt := (digit_facts c hc).2.1
      simp only [List.all_cons, hc, Bool.true_and] at hd
      simp only [hgt, if_false]
      exact ih hd _


theorem unsignedLiteral_some (ds : Bytes) (v : Nat) (h : unsignedLiteral ds = some v) :
    ds ≠ [] ∧ ds.all isDigit = true ∧ v = digitsFrom 0 ds := by
  unfold unsignedLiteral at h
  split at h
  · rename_i h'
    simp only [Option.some.injEq] at h
    exact ⟨h'.1, h'.2, h.symm⟩
  · simp at h

theorem unsignedLiteral_none (ds : Bytes) (h : unsignedLiteral ds = none) :
    ds = [] ∨ ds.all isDigit = false := by
  unfold unsignedLiteral at h
  split at h
  · simp at h
  · rename_i h'
    by_cases h1 : ds = []
    · exact Or.inl h1
    · right
      cases h2 : ds.all isDigit with
      | false => rfl
      | true => exact absurd ⟨h1, h2⟩ h'

theorem ParseUint_digits (ds : Bytes) (hne : ds ≠ []) (hd : ds.all isDigit = true) :
    ParseUint ds =
      if digitsFrom 0 ds < 18446744073709551616 then .ok (digitsFrom 0 ds)
      else .error .ErrRange := by
  unfold ParseUint
  rw [if_neg hne]
  exact parseUintLoop_digits ds hd 0 (by norm_num)

theorem ParseUint_bad (ds : Bytes) (h : ds = [] ∨ ds.all isDigit = false) :
    ∃ e, ParseUint ds = .error e := by
  unfold ParseUint
  rcases h with h | h
  · exact ⟨_, by rw [if_pos h]⟩
  · split
    · exact ⟨_, rfl⟩
    · exact parseUintLoop_nondigit ds h 0

theorem atoiFast_short (ds : Bytes) (hd : ds.all isDigit = true) (hl : ds.length ≤ 18) :
    atoiFast ds 0 = some ((digitsFrom 0 ds : Nat) : Int) ∧ digitsFrom 0 ds < 10 ^ 18 := by
  have h1 := digitsFrom_lt ds hd 0 0 (by norm_num)
  have h2 : digitsFrom 0 ds < 10 ^ 18 :=
    lt_of_lt_of_le h1 (Nat.pow_le_pow_right (by norm_num) (by omega))
  refine ⟨?_, h2⟩
  have := atoiFast_digits ds hd 0 (by norm_num at h2 ⊢; omega)
  simpa using this

theorem ParseInt_cons (c : UInt8) (ds : Bytes) :
    ParseInt (c :: ds) =
      parseIntTail (decide (c = 45)) (c :: ds)
        (ParseUint (if c = 45 ∨ c = 43 then ds else c :: ds)) := by
  unfold ParseInt parseIntTail
  by_cases h1 : c = 45
  · simp [h1]
  · by_cases h2 : c = 43
    · simp [h2]
    · simp [h1, h2]

theorem parseIntTail_ok (neg : Bool) (s0 : Bytes) (v : Nat) :
    parseIntTail neg s0 (if v < 18446744073709551616 then .ok v else .error .ErrRange) =
      if (if neg then v ≤ 9223372036854775808 else v < 9223372036854775808)
      then .ok (if neg then -(v : Int) else (v : Int))
      else .error ⟨"ParseInt", s0, .ErrRange⟩ := by
  unfold parseIntTail
  by_cases hv : v < 18446744073709551616
  · simp only [hv, if_true]
    norm_num
    cases neg
    · by_cases h : v < 9223372036854775808
      · have h' : ¬ (9223372036854775808 ≤ v) := by omega
        rw [wrapInt64_id (v : Int) (by omega) (by omega)]
        simp [h, h']
      · have h' : (9223372036854775808 ≤ v) := by omega
        simp [h, h']
    · by_cases h : v ≤ 9223372036854775808
      · have h' : ¬ (9223372036854775808 < v) := by omega
        by_cases he : v = 9223372036854775808
        · subst he
          unfold wrapInt64
          norm_num
        · rw [wrapInt64_id (v : Int) (by omega) (by omega),
            wrapInt64_id (-(v : Int)) (by omega) (by omega)]
          simp [h, h']
      · have h' : (9223372036854775808 < v) := by omega
        simp [h, h']
  · simp only [hv, if_false, maxUint64]
    cases neg
    · have : ¬ v < 9223372036854775808 := by omega
      simp [this]
    · have : ¬ v ≤ 9223372036854775808 := by omega
      simp [this]

theorem parseIntTail_error (neg : Bool) (s0 : Bytes) (e : NumErrKind) :
    ∃ err, parseIntTail neg s0 (.error e) = .error err := by
  unfold parseIntTail
  cases e
  · exact ⟨_, rfl⟩
  · cases neg <;> simp [maxUint64]


theorem Atoi_cons (c : UInt8) (ds : Bytes) :
    Atoi (c :: ds) =
      if ds.length + 1 < 19 then
        (if (c = 45 ∨ c = 43) ∧ (if c = 45 ∨ c = 43 then ds else c :: ds) = []
         then .error ⟨"Atoi", c :: ds, .ErrSyntax⟩
         else
          match atoiFast (if c = 45 ∨ c = 43 then ds else c :: ds) 0 with
          | none => .error ⟨"Atoi", c :: ds, .ErrSyntax⟩
          | some n => .ok (if c = 45 then wrapInt64 (-n) else n))
      else
        match ParseInt (c :: ds) with
        | .error nerr => .error { nerr with Func := "Atoi" }
        | .ok i64 => .ok i64 := by
  unfold Atoi
  simp

theorem decimalLiteral_cons (c : UInt8) (ds : Bytes) :
    decimalLiteral (c :: ds) =
      (unsignedLiteral (if c = 45 ∨ c = 43 then ds else c :: ds)).map
        (fun (v : Nat) => if c = 45 then -(v : Int) else (v : Int)) := by
  unfold decimalLiteral
  by_cases h1 : c = 45
  · simp [h1]
  · by_cases h2 : c = 43
    · simp [h2]
    · simp [h1, h2]

/-- What `Atoi` does on every input, in terms of the literal the input is. -/
theorem Atoi_spec (s : Bytes) :
    (∀ n, decimalLiteral s = some n →
      (-9223372036854775808 ≤ n ∧ n < 9223372036854775808 → Atoi s = .ok n) ∧
      (¬ (-9223372036854775808 ≤ n ∧ n < 9223372036854775808) → ∃ e, Atoi s = .error e)) ∧
    (decimalLiteral s = none → ∃ e, Atoi s = .error e) := by
  cases s with
  | nil =>
    refine ⟨fun n h => ?_, fun _ => ⟨_, by simp [Atoi, ParseInt]; rfl⟩⟩
    simp [decimalLiteral] at h
  | cons c ds =>
    rw [decimalLiteral_cons, Atoi_cons, ParseInt_cons]
    generalize hb : (if c = 45 ∨ c = 43 then ds else c :: ds) = body
    have hlen : body.length ≤ ds.length + 1 := by
      rw [← hb]; split <;> simp
    have hsigned : (c = 45 ∨ c = 43) → body = ds := by
      intro h; rw [← hb, if_pos h]
    constructor
    · intro n hn
      cases hu : unsignedLiteral body with
      | none => simp [hu] at hn
      | some v =>
        simp only [hu, Option.map_some', Option.some.injEq] at hn
        obtain ⟨hne, hd, hv⟩ := unsignedLiteral_some body v hu
        by_cases hfast : ds.length + 1 < 19
        · rw [if_pos hfast]
          have hcond : ¬ ((c = 45 ∨ c = 43) ∧ body = []) := by
            rintro ⟨_, h2⟩
            exact hne h2
          rw [if_neg hcond]
          obtain ⟨hf, hbound⟩ := atoiFast_short body hd (by omega)
          rw [hf, ← hv]
          norm_num at hbound
          have hres : (if c = 45 then wrapInt64 (-(v : Int)) else (v : Int)) = n := by
            rw [← hn]
            by_cases h45 : c = 45
            · simp only [h45, if_true]
              rw [wrapInt64_id] <;> omega
            · simp [h45]
          simp only [hres]
          constructor
          · intro _; trivial
          · intro hr
            exfalso; apply hr
            rw [← hn]; split <;> omega
        · rw [if_neg hfast, ParseUint_digits body hne hd, ← hv, parseIntTail_ok]
          by_cases h45 : c = 45
          · simp only [h45, decide_True, if_true] at hn ⊢
            subst hn
            constructor
            · intro hr
              have : v ≤ 9223372036854775808 := by omega
              simp [this]
            · intro hr
              have : ¬ v ≤ 9223372036854775808 := by omega
              simp [this]
          · simp only [h45, decide_False, if_false, Bool.false_eq_true] at hn ⊢
            subst hn
            constructor
            · intro hr
              have : v < 9223372036854775808 := by omega
              simp [this]
            · intro hr
              have : ¬ v < 9223372036854775808 := by omega
              simp [this]
    · intro hn
      have hu : unsignedLiteral body = none := by
        cases hu : unsignedLiteral body with
        | none => rfl
        | some v => simp [hu] at hn
      have hbad := unsignedLiteral_none body hu
      by_cases hfast : ds.length + 1 < 19
      · rw [if_pos hfast]
        split
        · exact ⟨_, rfl⟩
        · rename_i hcond
          have hd : body.all isDigit = false := by
            rcases hbad with h | h
            · subst h
              exfalso
              by_cases hs : c = 45 ∨ c = 43
              · exact hcond ⟨hs, rfl⟩
              · rw [if_neg hs] at hb
                simp at hb
            · exact h
          rw [atoiFast_nondigit body hd]
          exact ⟨_, rfl⟩
      · rw [if_neg hfast]
        obtain ⟨e, he⟩ := ParseUint_bad body hbad
        obtain ⟨err, herr⟩ := parseIntTail_error (decide (c = 45)) (c :: ds) e
        rw [he, herr]
        exact ⟨_, rfl⟩


/-! ## The timestamp codec -/

theorem timeUnix_Unix (n : Int) (h1 : -9223372036854775808 ≤ n) (h2 : n < 9223372036854775808) :
    (timeUnix n 0).Unix = n ∧ (timeUnix n 0).Nanosecond = 0 := by
  unfold timeUnix Time.Unix Time.Nanosecond wrapInt64 unixToInternal
  norm_num
  omega

/-- C1 (as amended): for every token that is a decimal integer literal whose value `n`
fits the 64-bit `int`, `Time.UnmarshalJSON` returns no error and sets the receiver to
`time.Unix(n, 0)`, the instant `n` seconds after the Unix epoch with zero nanoseconds;
the token `1511561700` yields 2017-11-24T22:15:00Z. -/
theorem C1_unmarshal_integer_literal (t : Time) (b : Bytes) (n : Int)
    (hlit : decimalLiteral b = some n)
    (hlo : -9223372036854775808 ≤ n) (hhi : n < 9223372036854775808) :
    Time.UnmarshalJSON t b = (timeUnix n 0, none) ∧
      (timeUnix n 0).Unix = n ∧ (timeUnix n 0).Nanosecond = 0 ∧
      Time.UnmarshalJSON t (str "1511561700") =
        (timeUnix (dateUTC 2017 11 24 22 15 0) 0, none) := by
  have h := ((Atoi_spec b).1 n hlit).1 ⟨hlo, hhi⟩
  have h' := ((Atoi_spec (str "1511561700")).1 1511561700 (by decide)).1 (by decide)
  refine ⟨?_, (timeUnix_Unix n hlo hhi).1, (timeUnix_Unix n hlo hhi).2, ?_⟩
  · simp [Time.UnmarshalJSON, h]
  · have hd : dateUTC 2017 11 24 22 15 0 = 1511561700 := by decide
    simp [Time.UnmarshalJSON, h', hd]

/-- C1, witness: the token `1511561700`. -/
theorem C1_unmarshal_integer_literal_witness :
    decimalLiteral (str "1511561700") = some 1511561700 ∧
      Time.UnmarshalJSON ⟨0, 0, .UTC⟩ (str "1511561700") = (timeUnix 1511561700 0, none) ∧
      (timeUnix 1511561700 0).Unix = 1511561700 :=
  ⟨by decide,
    (C1_unmarshal_integer_literal ⟨0, 0, .UTC⟩ (str "1511561700") 1511561700
      (by decide) (by decide) (by decide)).1,
    (C1_unmarshal_integer_literal ⟨0, 0, .UTC⟩ (str "1511561700") 1511561700
      (by decide) (by decide) (by decide)).2.1⟩

/-- C1 as stated fails twice: `9223372036854775808` is a decimal integer literal, and
`Time.UnmarshalJSON` answers it with a range error and leaves the receiver alone; and
the instant decoded from `1511561700` is not 2017-11-24T21:15:00Z but one hour later. -/
theorem C1_counterexample :
    (decimalLiteral (str "9223372036854775808") = some 9223372036854775808 ∧
      Time.UnmarshalJSON ⟨0, 0, .UTC⟩ (str "9223372036854775808") =
        (⟨0, 0, .UTC⟩, some ⟨"Atoi", str "9223372036854775808", .ErrRange⟩)) ∧
    ((Time.UnmarshalJSON ⟨0, 0, .UTC⟩ (str "1511561700")).1.Unix =
        dateUTC 2017 11 24 21 15 0 + 3600 ∧
      (Time.UnmarshalJSON ⟨0, 0, .UTC⟩ (str "1511561700")).1 ≠
        timeUnix (dateUTC 2017 11 24 21 15 0) 0) := by
  refine ⟨⟨?_, ?_⟩, ?_, ?_⟩ <;> decide

/-- C6: for every token that is not a base-10 integer (an optional sign and one or
more decimal digits), `Time.UnmarshalJSON` returns a non-nil error, and the receiver
keeps its value. -/
theorem C6_unmarshal_rejects_non_integer (t : Time) (b : Bytes)
    (h : decimalLiteral b = none) :
    ∃ err, Time.UnmarshalJSON t b = (t, some err) := by
  obtain ⟨e, he⟩ := (Atoi_spec b).2 h
  exact ⟨e, by simp [Time.UnmarshalJSON, he]⟩

/-- C6, witness: the tokens `"abc"` (quoted), the empty token, `null`, `1.5`, `1e9`
and `12abc`. -/
theorem C6_unmarshal_rejects_non_integer_witness :
    (∃ err, Time.UnmarshalJSON ⟨0, 0, .UTC⟩ (str "\"abc\"") = (⟨0, 0, .UTC⟩, some err)) ∧
    (∃ err, Time.UnmarshalJSON ⟨0, 0, .UTC⟩ (str "") = (⟨0, 0, .UTC⟩, some err)) ∧
    (∃ err, Time.UnmarshalJSON ⟨0, 0, .UTC⟩ (str "null") = (⟨0, 0, .UTC⟩, some err)) ∧
    (∃ err, Time.UnmarshalJSON ⟨0, 0, .UTC⟩ (str "1.5") = (⟨0, 0, .UTC⟩, some err)) ∧
    (∃ err, Time.UnmarshalJSON ⟨0, 0, .UTC⟩ (str "1e9") = (⟨0, 0, .UTC⟩, some err)) ∧
    (∃ err, Time.UnmarshalJSON ⟨0, 0, .UTC⟩ (str "12abc") = (⟨0, 0, .UTC⟩, some err)) :=
  ⟨C6_unmarshal_rejects_non_integer _ _ (by decide),
    C6_unmarshal_rejects_non_integer _ _ (by decide),
    C6_unmarshal_rejects_non_integer _ _ (by decide),
    C6_unmarshal_rejects_non_integer _ _ (by decide),
    C6_unmarshal_rejects_non_integer _ _ (by decide),
    C6_unmarshal_rejects_non_integer _ _ (by decide)⟩

/-! ## Building the request -/

theorem NewRequest_ok (method url : Bytes) (body : Option Bytes) (r : Request)
    (h : NewRequest method url body = .ok r) :
    r.Header = [] ∧ r.Body = body ∧
      ∃ u, urlParse url = .ok u ∧ r.URL = { u with Host := removeEmptyPort u.Host } := by
  unfold NewRequest at h
  simp only at h
  generalize (if method = [] then str "GET" else method) = m at h
  split at h
  · simp at h
  · split at h
    · simp at h
    · rename_i u hu
      simp only [Except.ok.injEq] at h
      subst h
      exact ⟨rfl, rfl, u, hu, rfl⟩

theorem headerKeys_ne :
    str "Accept" ≠ str "User-Agent" ∧ str "Accept" ≠ str "Content-Type" ∧
      str "User-Agent" ≠ str "Content-Type" ∧ str "User-Agent" ≠ str "Accept" ∧
      str "Content-Type" ≠ str "Accept" ∧ str "Content-Type" ≠ str "User-Agent" := by decide

theorem canonical_Accept : CanonicalMIMEHeaderKey (str "Accept") = str "Accept" := by decide

theorem canonical_UserAgent : CanonicalMIMEHeaderKey (str "User-Agent") = str "User-Agent" := by
  decide

theorem canonical_ContentType :
    CanonicalMIMEHeaderKey (str "Content-Type") = str "Content-Type" := by decide

/-- What `Client.Request` returns when it succeeds, in terms of the request that
`http.NewRequest` made. -/
theorem Request_ok {β : Type} (enc : β → Except Bytes Bytes) (c : Client) (method path : Bytes)
    (body : Option β) (req : Request) (h : Client.Request enc c method path body = .ok req) :
    ∃ baseURL buf r0,
      urlParse c.BaseURL = .ok baseURL ∧ encodeJSON enc body = .ok buf ∧
      NewRequest method (URL.String (URL.ResolveReference baseURL { Path := path })) buf = .ok r0 ∧
      req = { r0 with
        Header :=
          [(str "Accept", [str "application/json"])] ++
            (if c.UserAgent ≠ [] then [(str "User-Agent", [c.UserAgent])] else []) ++
            (if body.isSome then [(str "Content-Type", [str "application/json"])] else []) } := by
  unfold Client.Request at h
  split at h
  · simp at h
  · rename_i baseURL hb
    simp only at h
    split at h
    · simp at h
    · rename_i buf hbuf
      split at h
      · simp at h
      · rename_i r0 hr0
        refine ⟨baseURL, buf, r0, hb, hbuf, hr0, ?_⟩
        obtain ⟨hh, -, -⟩ := NewRequest_ok _ _ _ _ hr0
        simp only [Except.ok.injEq] at h
        subst h
        by_cases hua : c.UserAgent = [] <;> cases body <;>
          simp [hh, hua, Header.Set, Header.put, canonical_Accept, canonical_UserAgent,
            canonical_ContentType, headerKeys_ne]

/-- C8: for every method, path, body and client for which `Request` succeeds, the
headers of the returned request are exactly `Accept: application/json`, then
`User-Agent` with the client's `UserAgent` if and only if that is not empty, then
`Content-Type: application/json` if and only if a body was supplied; and without a
body the request has none. -/
theorem C8_request_headers {β : Type} (enc : β → Except Bytes Bytes) (c : Client)
    (method path : Bytes) (body : Option β) (req : Request)
    (h : Client.Request enc c method path body = .ok req) :
    req.Header =
        [(str "Accept", [str "application/json"])] ++
          (if c.UserAgent ≠ [] then [(str "User-Agent", [c.UserAgent])] else []) ++
          (if body.isSome then [(str "Content-Type", [str "application/json"])] else []) ∧
      Header.lookup req.Header (str "Accept") = some [str "application/json"] ∧
      (Header.lookup req.Header (str "User-Agent") =
        if c.UserAgent ≠ [] then some [c.UserAgent] else none) ∧
      (Header.lookup req.Header (str "Content-Type") =
        if body.isSome then some [str "application/json"] else none) ∧
      (body = none → req.Body = none) := by
  obtain ⟨baseURL, buf, r0, -, hbuf, hr0, rfl⟩ := Request_ok enc c method path body req h
  obtain ⟨-, hbody, -⟩ := NewRequest_ok _ _ _ _ hr0
  refine ⟨rfl, ?_, ?_, ?_, ?_⟩
  · simp only [Header.lookup, List.cons_append, List.nil_append, if_true]
  · by_cases hua : c.UserAgent = [] <;> cases body <;>
      simp [hua, Header.lookup, headerKeys_ne]
  · by_cases hua : c.UserAgent = [] <;> cases body <;>
      simp [hua, Header.lookup, headerKeys_ne]
  · intro hnone
    subst hnone
    simp only [encodeJSON, Except.ok.injEq] at hbuf
    simp [hbody, ← hbuf]

/-- C8, witness: the default client building `GET /weather` without a body. -/
theorem C8_request_headers_witness :
    (Client.Request noEncoder (New (str "Test")) (str "GET") (str "/weather") none).toOption.map
        (fun r => (r.Header, r.Body)) =
      some ([(str "Accept", [str "application/json"]),
        (str "User-Agent", [str "bike-barometer/0.1"])], none) ∧
    (∀ req, Client.Request noEncoder (New (str "Test")) (str "GET") (str "/weather") none = .ok req →
      Header.lookup req.Header (str "Accept") = some [str "application/json"]) :=
  ⟨by decide, fun req h =>
    (C8_request_headers noEncoder (New (str "Test")) (str "GET") (str "/weather") none req h).2.1⟩


/-! ## The lookups -/

theorem ByCityName_eq (net : Network) (c : Client) (city : Bytes) :
    Client.ByCityName net c city =
      match Client.Request noEncoder c (str "GET") (str "/weather") none with
      | .error err => (.error err, [])
      | .ok req => doLookup net c (withQuery req [(str "q", city), (str "APPID", c.key)]) := rfl

theorem ByZip_eq (net : Network) (c : Client) (zip : Bytes) :
    Client.ByZip net c zip =
      match Client.Request noEncoder c (str "GET") (str "/weather") none with
      | .error err => (.error err, [])
      | .ok req => doLookup net c (withQuery req [(str "zip", zip), (str "APPID", c.key)]) := rfl

theorem ByCoordinates_eq (net : Network) (c : Client) (lat lon : Float64) :
    Client.ByCoordinates net c lat lon =
      match Client.Request noEncoder c (str "GET") (str "/weather") none with
      | .error err => (.error err, [])
      | .ok req =>
        doLookup net c
          (withQuery req
            [(str "lat", formatF lat), (str "lon", formatF lon), (str "APPID", c.key)]) := rfl

/-- A lookup whose request is answered with a response hands back what the decoder
makes of the body, and has sent exactly that request. -/
theorem doLookup_ok (net : Network) (c : Client) (req : Request) (res : Response)
    (h : net req = .ok res) :
    doLookup net c req =
      (match (decodeOpenWeatherMap res.Body {}).2 with
        | some err => .error err
        | none => .ok (decodeOpenWeatherMap res.Body {}).1, [req]) := by
  unfold doLookup Client.Do
  simp only [h]
  cases (decodeOpenWeatherMap res.Body {}).2 <;> rfl

/-- C10: for every client whose `BaseURL` fails to parse and every argument, each of
`ByCityName`, `ByZip` and `ByCoordinates` returns no report and the URL parse error,
whatever the network would answer, and no request goes out. -/
theorem C10_malformed_base_url (net : Network) (c : Client) (e : URLError)
    (h : urlParse c.BaseURL = .error e) :
    (∀ city, Client.ByCityName net c city = (.error (.url e), [])) ∧
      (∀ zip, Client.ByZip net c zip = (.error (.url e), [])) ∧
      (∀ lat lon, Client.ByCoordinates net c lat lon = (.error (.url e), [])) := by
  have hr : Client.Request noEncoder c (str "GET") (str "/weather") none = .error (.url e) := by
    simp [Client.Request, h]
  refine ⟨fun city => ?_, fun zip => ?_, fun lat lon => ?_⟩
  · rw [ByCityName_eq, hr]
  · rw [ByZip_eq, hr]
  · rw [ByCoordinates_eq, hr]

/-- C10, witness: the base URL `http://[::1`, on a network that would answer. -/
theorem C10_malformed_base_url_witness :
    urlParse (str "http://[::1") = .error ⟨"parse", str "http://[::1", .missingBracket⟩ ∧
      Client.ByCityName (constNetwork 200 referenceDocument)
          { New (str "Test") with BaseURL := str "http://[::1" } (str "Austin") =
        (.error (.url ⟨"parse", str "http://[::1", .missingBracket⟩), []) :=
  ⟨by decide,
    (C10_malformed_base_url (constNetwork 200 referenceDocument)
      { New (str "Test") with BaseURL := str "http://[::1" }
      ⟨"parse", str "http://[::1", .missingBracket⟩ (by decide)).1 (str "Austin")⟩

set_option maxHeartbeats 1000000 in
/-- C2, the code at the default base URL: `Request("GET", "/weather", nil)` on a
client made by `New` targets `https://api.openweathermap.org/weather`; the path
`/data/2.5` of the base URL is gone, and so is it in the request `ByCityName`
sends.  Whatever the base URL, resolving `/weather` against it keeps its scheme,
user and host and puts `/weather` in the place of its path. -/
theorem C2_default_base_path_dropped :
    (Client.Request noEncoder (New (str "Test")) (str "GET") (str "/weather") none).toOption.map
        (fun r => URL.String r.URL) =
      some (str "https://api.openweathermap.org/weather") ∧
    (Client.ByCityName (constNetwork 200 referenceDocument) (New (str "Test"))
        (str "Austin")).2.map (fun r => URL.String { r.URL with RawQuery := [] }) =
      [str "https://api.openweathermap.org/weather"] ∧
    str "https://api.openweathermap.org/weather" ≠
      defaultBaseURL ++ str "/weather" ∧
    (∀ base : URL, URL.ResolveReference base { Path := str "/weather" } =
      { Scheme := base.Scheme, User := base.User, Host := base.Host, Path := str "/weather" }) := by
  refine ⟨by decide, by decide!, by decide, fun base => rfl⟩

set_option maxRecDepth 1000000 in
theorem decode_referenceDocument :
    decodeOpenWeatherMap referenceDocument {} = (expect, none) := by decide

/-- C3: for all three lookups and every argument, when the request can be built and
the response to what is sent has the reference document as its body (with any
status code), the lookup returns no error and the report `expect` of the tests:
every field holds the document's literal value, the float fields being the doubles
nearest to -97.74, 30.27, 296.82, 296.15, 298.15, 6.2 and 9.3, there is exactly one
`Weather` entry, the three timestamps are the instants 1511561700, 1511528705 and
1511566248 seconds after the epoch, the unknown keys leave no trace and `Snow` is
zero. -/
theorem C3_reference_document (net : Network) (c : Client) (req0 : Request)
    (hreq : Client.Request noEncoder c (str "GET") (str "/weather") none = .ok req0)
    (hnet : ∀ r, ∃ status, net r = .ok ⟨status, referenceDocument⟩) :
    (∀ city, (Client.ByCityName net c city).1 = .ok expect) ∧
      (∀ zip, (Client.ByZip net c zip).1 = .ok expect) ∧
      (∀ lat lon, (Client.ByCoordinates net c lat lon).1 = .ok expect) ∧
      expect.DT.Unix = 1511561700 ∧ expect.Sys.Sunrise.Unix = 1511528705 ∧
      expect.Sys.Sunset.Unix = 1511566248 ∧ expect.Snow = {} ∧
      isNearestDouble true 9774 100 expect.Coord.Lon = true ∧
      isNearestDouble false 3027 100 expect.Coord.Lat = true ∧
      isNearestDouble false 29682 100 expect.Main.Temp = true ∧
      isNearestDouble false 29615 100 expect.Main.TempMin = true ∧
      isNearestDouble false 29815 100 expect.Main.TempMax = true ∧
      isNearestDouble false 62 10 expect.Wind.Speed = true ∧
      isNearestDouble false 93 10 expect.Wind.Gust = true ∧
      expect.Main.Pressure = 1012 ∧ expect.Main.Humidity = 25 ∧ expect.Visibility = 11265 ∧
      expect.Wind.Deg = 200 ∧ expect.Clouds.All = 1 ∧ expect.ID = 4671654 ∧
      expect.Name = str "Austin" ∧ expect.Sys.Country = str "US" ∧
      expect.Weather.elems = some [⟨800, str "Clear", str "clear sky", str "01d"⟩] := by
  have key : ∀ r, (doLookup net c r).1 = .ok expect := by
    intro r
    obtain ⟨status, hs⟩ := hnet r
    rw [doLookup_ok net c r _ hs]
    simp only [decode_referenceDocument]
  refine ⟨fun city => ?_, fun zip => ?_, fun lat lon => ?_, ?_⟩
  · rw [ByCityName_eq, hreq]; exact key _
  · rw [ByZip_eq, hreq]; exact key _
  · rw [ByCoordinates_eq, hreq]; exact key _
  · decide

theorem Request_default (key : Bytes) :
    Client.Request noEncoder (New key) (str "GET") (str "/weather") none =
      .ok defaultWeatherRequest := by
  have h : ∀ c1 c2 : Client, c1.BaseURL = c2.BaseURL → c1.UserAgent = c2.UserAgent →
      Client.Request noEncoder c1 (str "GET") (str "/weather") none =
        Client.Request noEncoder c2 (str "GET") (str "/weather") none := by
    intro c1 c2 h1 h2
    unfold Client.Request
    rw [h1, h2]
  rw [h (New key) (New []) rfl rfl]
  decide

/-- C3, witness: a client made by `New` on a network that answers every request with
status 200 and the reference document. -/
theorem C3_reference_document_witness :
    Client.Request noEncoder (New (str "Test")) (str "GET") (str "/weather") none =
        .ok defaultWeatherRequest ∧
      (Client.ByCityName (constNetwork 200 referenceDocument) (New (str "Test"))
        (str "Austin")).1 = .ok expect ∧
      (Client.ByZip (constNetwork 200 referenceDocument) (New (str "Test"))
        (str "78704")).1 = .ok expect ∧
      (Client.ByCoordinates (constNetwork 200 referenceDocument) (New (str "Test"))
        (float64Const false 3027 100) (float64Const true 9774 100)).1 = .ok expect :=
  ⟨Request_default _,
    (C3_reference_document (constNetwork 200 referenceDocument) (New (str "Test"))
      defaultWeatherRequest (Request_default _) (fun _ => ⟨200, rfl⟩)).1 _,
    (C3_reference_document (constNetwork 200 referenceDocument) (New (str "Test"))
      defaultWeatherRequest (Request_default _) (fun _ => ⟨200, rfl⟩)).2.1 _,
    (C3_reference_document (constNetwork 200 referenceDocument) (New (str "Test"))
      defaultWeatherRequest (Request_default _) (fun _ => ⟨200, rfl⟩)).2.2.1 _ _⟩

set_option maxRecDepth 1000000 in
/-- C7, the code at a body with both volumes: the snow volume 3 is in the report, and
the report is the same whether the rain volume is 5 or 7, so the rain volume cannot
be read from it. -/
theorem C7_rain_volume_is_dropped :
    (decodeOpenWeatherMap (precipitationDocument 5 3) {}).2 = none ∧
      (decodeOpenWeatherMap (precipitationDocument 5 3) {}).1.Snow.VolumeForLast3Hours = 3 ∧
      decodeOpenWeatherMap (precipitationDocument 5 3) {} =
        decodeOpenWeatherMap (precipitationDocument 7 3) {} ∧
      decodeOpenWeatherMap (precipitationDocument 5 3) {} =
        ({ Snow := { VolumeForLast3Hours := 3 } }, none) := by
  refine ⟨by decide, by decide, by decide, by decide⟩


/-! ## The status code -/

theorem field_no_match (key raw : Bytes) (v : JValue) (cur : OpenWeatherMap)
    (saved : Option JSONErr) (h : ∀ name ∈ reportKeys, fieldMatch key name = false) :
    OpenWeatherMap.field key raw v cur saved = (cur, saved, none) := by
  have h1 := h "id" (by decide)
  have h2 := h "name" (by decide)
  have h3 := h "dt" (by decide)
  have h4 := h "visibility" (by decide)
  have h5 := h "coord" (by decide)
  have h6 := h "weather" (by decide)
  have h7 := h "main" (by decide)
  have h8 := h "wind" (by decide)
  have h9 := h "snow" (by decide)
  have h10 := h "clouds" (by decide)
  have h11 := h "sys" (by decide)
  unfold OpenWeatherMap.field
  simp only [h1, h2, h3, h4, h5, h6, h7, h8, h9, h10, h11, Bool.false_eq_true, if_false]

theorem decodeMembers_no_match (members : List (Bytes × Bytes × JValue))
    (h : ∀ m ∈ members, ∀ name ∈ reportKeys, fieldMatch m.1 name = false) :
    ∀ (cur : OpenWeatherMap) (saved : Option JSONErr),
      decodeMembers OpenWeatherMap.field members cur saved = (cur, saved, none) := by
  induction members with
  | nil => intro cur saved; rfl
  | cons m ms ih =>
    intro cur saved
    obtain ⟨k, raw, v⟩ := m
    have hk := h (k, raw, v) (List.mem_cons_self _ _)
    unfold decodeMembers
    rw [field_no_match k raw v cur saved hk]
    exact ih (fun m hm => h m (List.mem_cons_of_mem _ hm)) cur saved

theorem decode_no_match (body raw : Bytes) (members : List (Bytes × Bytes × JValue))
    (hread : readValue body = .ok (.obj members, raw))
    (h : ∀ m ∈ members, ∀ name ∈ reportKeys, fieldMatch m.1 name = false) :
    decodeOpenWeatherMap body {} = ({}, none) := by
  unfold decodeOpenWeatherMap
  rw [hread]
  simp only [decodeStruct, decodeMembers_no_match members h]

set_option maxRecDepth 1000000 in
theorem lower_upper_cases : ∀ n : Fin 256,
    (if 65 ≤ (if 97 ≤ (UInt8.mk (BitVec.ofFin n)) ∧ (UInt8.mk (BitVec.ofFin n)) ≤ 122
          then (UInt8.mk (BitVec.ofFin n)) - 32 else (UInt8.mk (BitVec.ofFin n))) ∧
        (if 97 ≤ (UInt8.mk (BitVec.ofFin n)) ∧ (UInt8.mk (BitVec.ofFin n)) ≤ 122
          then (UInt8.mk (BitVec.ofFin n)) - 32 else (UInt8.mk (BitVec.ofFin n))) ≤ 90
      then (if 97 ≤ (UInt8.mk (BitVec.ofFin n)) ∧ (UInt8.mk (BitVec.ofFin n)) ≤ 122
          then (UInt8.mk (BitVec.ofFin n)) - 32 else (UInt8.mk (BitVec.ofFin n))) + 32
      else (if 97 ≤ (UInt8.mk (BitVec.ofFin n)) ∧ (UInt8.mk (BitVec.ofFin n)) ≤ 122
          then (UInt8.mk (BitVec.ofFin n)) - 32 else (UInt8.mk (BitVec.ofFin n)))) =
      (if 65 ≤ (UInt8.mk (BitVec.ofFin n)) ∧ (UInt8.mk (BitVec.ofFin n)) ≤ 90
        then (UInt8.mk (BitVec.ofFin n)) + 32 else (UInt8.mk (BitVec.ofFin n))) ∧
    ((UInt8.mk (BitVec.ofFin n)) < 128 →
      (UInt8.mk (BitVec.ofFin n)) ≠ 197 ∧ (UInt8.mk (BitVec.ofFin n)) ≠ 226) := by
  decide

/-- Upper case of an ASCII letter, the way `foldName` writes it. -/
theorem foldNameFrom_ascii (s : Bytes) (h : s.all (fun b => decide (b < 128)) = true) :
    foldNameFrom 0 s = s.map (fun a => if 97 ≤ a ∧ a ≤ 122 then a - 32 else a) := by
  induction s with
  | nil => rfl
  | cons a s ih =>
    simp only [List.all_cons, Bool.and_eq_true, decide_eq_true_eq] at h
    have ha : a ≠ 197 ∧ a ≠ 226 := by
      rcases a with ⟨⟨n⟩⟩
      exact (lower_upper_cases n).2 h.1
    rw [foldNameFrom, List.map_cons, ih h.2]
    by_cases hl : 97 ≤ a ∧ a ≤ 122
    · simp [hl]
    · simp [hl, ha.1, ha.2]

theorem toLowerASCII_map_upper (s : Bytes) :
    toLowerASCII (s.map (fun a => if 97 ≤ a ∧ a ≤ 122 then a - 32 else a)) = toLowerASCII s := by
  unfold toLowerASCII
  rw [List.map_map]
  apply List.map_congr_left
  intro a _
  rcases a with ⟨⟨n⟩⟩
  exact (lower_upper_cases n).1

theorem reportKeys_lower :
    ∀ name ∈ reportKeys,
      (str name).all (fun b => decide (b < 128)) = true ∧ toLowerASCII (str name) = str name := by
  decide

/-- A key outside the report, in the sense stated without the decoder, selects no
field of the report in the decoder. -/
theorem fieldMatch_of_keyOutsideReport (key : Bytes) (h : keyOutsideReport key = true) :
    ∀ name ∈ reportKeys, fieldMatch key name = false := by
  intro name hname
  unfold keyOutsideReport at h
  simp only [Bool.and_eq_true, List.all_eq_true, bne_iff_ne, ne_eq] at h
  obtain ⟨hascii, hne⟩ := h
  have hascii2 : key.all (fun b => decide (b < 128)) = true := by
    simpa [List.all_eq_true] using hascii
  obtain ⟨hn1, hn2⟩ := reportKeys_lower name hname
  have hk := hne name hname
  unfold fieldMatch
  simp only [Bool.or_eq_false_iff, decide_eq_false_iff_not]
  constructor
  · intro he
    apply hk
    rw [he, hn2]
  · intro he
    apply hk
    unfold foldName at he
    rw [foldNameFrom_ascii key hascii2, foldNameFrom_ascii (str name) hn1] at he
    have := congrArg toLowerASCII he
    rw [toLowerASCII_map_upper, toLowerASCII_map_upper, hn2] at this
    exact this

/-- C9 (as amended): what `Do` leaves in the target and returns as error, and what
each lookup returns, does not depend on the status code of the response: two
networks that answer every request with the same body, under any two status codes,
give the same target, the same error and the same lookup results.  And when the
body is a JSON object whose keys are all ASCII and none of which is one of the
report's keys when letter case is ignored, under any status code, every lookup
that can build its request returns no error and the zero-valued report. -/
theorem C9_status_code_not_inspected (c : Client) (net1 net2 : Network)
    (hsame : ∀ r, ∃ status1 status2 body,
      net1 r = .ok ⟨status1, body⟩ ∧ net2 r = .ok ⟨status2, body⟩) :
    (∀ (req : Request) (v : OpenWeatherMap),
        (Client.Do net1 decodeOpenWeatherMap c req v).target =
            (Client.Do net2 decodeOpenWeatherMap c req v).target ∧
          (Client.Do net1 decodeOpenWeatherMap c req v).err =
            (Client.Do net2 decodeOpenWeatherMap c req v).err) ∧
      (∀ city, (Client.ByCityName net1 c city).1 = (Client.ByCityName net2 c city).1) ∧
      (∀ zip, (Client.ByZip net1 c zip).1 = (Client.ByZip net2 c zip).1) ∧
      (∀ lat lon, (Client.ByCoordinates net1 c lat lon).1 =
        (Client.ByCoordinates net2 c lat lon).1) ∧
      (∀ (req0 : Request) (body raw : Bytes) (members : List (Bytes × Bytes × JValue)),
        Client.Request noEncoder c (str "GET") (str "/weather") none = .ok req0 →
        (∀ r, ∃ status, net1 r = .ok ⟨status, body⟩) →
        readValue body = .ok (.obj members, raw) →
        (∀ m ∈ members, keyOutsideReport m.1 = true) →
        (∀ city, (Client.ByCityName net1 c city).1 = .ok {}) ∧
          (∀ zip, (Client.ByZip net1 c zip).1 = .ok {}) ∧
          (∀ lat lon, (Client.ByCoordinates net1 c lat lon).1 = .ok {})) := by
  have hdo : ∀ (req : Request) (v : OpenWeatherMap),
      (Client.Do net1 decodeOpenWeatherMap c req v).target =
          (Client.Do net2 decodeOpenWeatherMap c req v).target ∧
        (Client.Do net1 decodeOpenWeatherMap c req v).err =
          (Client.Do net2 decodeOpenWeatherMap c req v).err := by
    intro req v
    obtain ⟨s1, s2, body, h1, h2⟩ := hsame req
    simp [Client.Do, h1, h2]
  have hlook : ∀ req, (doLookup net1 c req).1 = (doLookup net2 c req).1 := by
    intro req
    obtain ⟨s1, s2, body, h1, h2⟩ := hsame req
    rw [doLookup_ok net1 c req _ h1, doLookup_ok net2 c req _ h2]
  refine ⟨hdo, fun city => ?_, fun zip => ?_, fun lat lon => ?_, ?_⟩
  · rw [ByCityName_eq, ByCityName_eq]
    cases Client.Request noEncoder c (str "GET") (str "/weather") none with
    | error e => rfl
    | ok req => exact hlook _
  · rw [ByZip_eq, ByZip_eq]
    cases Client.Request noEncoder c (str "GET") (str "/weather") none with
    | error e => rfl
    | ok req => exact hlook _
  · rw [ByCoordinates_eq, ByCoordinates_eq]
    cases Client.Request noEncoder c (str "GET") (str "/weather") none with
    | error e => rfl
    | ok req => exact hlook _
  · intro req0 body raw members hreq hnet hread hkeys
    have hkeys2 : ∀ m ∈ members, ∀ name ∈ reportKeys, fieldMatch m.1 name = false :=
      fun m hm => fieldMatch_of_keyOutsideReport m.1 (hkeys m hm)
    have key : ∀ r, (doLookup net1 c r).1 = .ok {} := by
      intro r
      obtain ⟨status, hs⟩ := hnet r
      rw [doLookup_ok net1 c r _ hs]
      simp only [decode_no_match body raw members hread hkeys2]
    refine ⟨fun city => ?_, fun zip => ?_, fun lat lon => ?_⟩
    · rw [ByCityName_eq, hreq]; exact key _
    · rw [ByZip_eq, hreq]; exact key _
    · rw [ByCoordinates_eq, hreq]; exact key _

set_option maxRecDepth 1000000 in
theorem readValue_errorDocument :
    readValue errorDocument =
      .ok (.obj [(str "cod", str "401", .num (str "401")),
        (str "message", str "\"Invalid API key\"", .str (str "Invalid API key"))],
        errorDocument) := by
  rfl

/-- C9, witness: the body `{"cod":401,"message":"Invalid API key"}` under the status
codes 401 and 200, sent to a client made by `New`. -/
theorem C9_status_code_not_inspected_witness :
    (Client.ByCityName (constNetwork 401 errorDocument) (New (str "Test")) (str "Austin")).1 =
        (Client.ByCityName (constNetwork 200 errorDocument) (New (str "Test")) (str "Austin")).1 ∧
      (keyOutsideReport (str "cod") = true ∧ keyOutsideReport (str "message") = true) ∧
      (Client.ByCityName (constNetwork 401 errorDocument) (New (str "Test")) (str "Austin")).1 =
        .ok {} ∧
      (Client.ByCoordinates (constNetwork 401 errorDocument) (New (str "Test"))
        (float64Const false 3027 100) (float64Const true 9774 100)).1 = .ok {} :=
  ⟨(C9_status_code_not_inspected (New (str "Test")) (constNetwork 401 errorDocument)
      (constNetwork 200 errorDocument) (fun _ => ⟨401, 200, errorDocument, rfl, rfl⟩)).2.1 _,
    by decide,
    ((C9_status_code_not_inspected (New (str "Test")) (constNetwork 401 errorDocument)
      (constNetwork 200 errorDocument) (fun _ => ⟨401, 200, errorDocument, rfl, rfl⟩)).2.2.2.2
      defaultWeatherRequest errorDocument errorDocument _ (Request_default _)
      (fun _ => ⟨401, rfl⟩) readValue_errorDocument (by decide)).1 _,
    ((C9_status_code_not_inspected (New (str "Test")) (constNetwork 401 errorDocument)
      (constNetwork 200 errorDocument) (fun _ => ⟨401, 200, errorDocument, rfl, rfl⟩)).2.2.2.2
      defaultWeatherRequest errorDocument errorDocument _ (Request_default _)
      (fun _ => ⟨401, rfl⟩) readValue_errorDocument (by decide)).2.2 _ _⟩

set_option maxRecDepth 1000000 in
theorem readValue_upperCaseDocument :
    readValue upperCaseDocument =
      .ok (.obj [(str "ID", str "5", .num (str "5")), (str "NAME", str "\"x\"", .str (str "x"))],
        upperCaseDocument) := by
  rfl

set_option maxRecDepth 1000000 in
/-- C9 as stated fails in its last part: the body `{"ID":5,"NAME":"x"}` is a JSON
object with none of the report's keys (`ID` and `NAME` are not among them), and under
status 401 the lookup returns a report with `ID` 5 and `Name` `x`, not the
zero-valued one, because the decoder matches keys without regard to case.  It does
so for the two letters outside ASCII that fold to `s` and `k` as well: the body with
the one key `sys` spelt with U+017F makes the lookup return an error. -/
theorem C9_counterexample :
    (∃ members raw, readValue upperCaseDocument = .ok (.obj members, raw) ∧
        members.map (fun m => m.1) = [str "ID", str "NAME"]) ∧
      (∀ key ∈ [str "ID", str "NAME"], ∀ name ∈ reportKeys, key ≠ str name) ∧
      (Client.ByCityName (constNetwork 401 upperCaseDocument) (New (str "Test"))
          (str "Austin")).1 = .ok { ID := 5, Name := str "x" } ∧
      (Client.ByCityName (constNetwork 401 upperCaseDocument) (New (str "Test"))
          (str "Austin")).1 ≠ .ok {} ∧
      (∀ name ∈ reportKeys, toLowerASCII (str "\u017fys") ≠ str name) ∧
      (Client.ByCityName (constNetwork 401 longSDocument) (New (str "Test"))
          (str "Austin")).1 =
        .error (.json (.UnmarshalTypeError "number" "owm.Sys")) := by
  refine ⟨⟨_, _, readValue_upperCaseDocument, rfl⟩, by decide, by decide!, by decide!, by decide,
    by decide!⟩


/-! ## Query strings: escaping, and parsing what was encoded -/

set_option maxRecDepth 1000000 in
theorem escapeByte_query_cases : ∀ n : Fin 256,
    ((UInt8.mk (BitVec.ofFin n)) = 32 ∧
        escapeByte (UInt8.mk (BitVec.ofFin n)) .encodeQueryComponent = [43]) ∨
      ((UInt8.mk (BitVec.ofFin n)) ≠ 32 ∧
        escapeByte (UInt8.mk (BitVec.ofFin n)) .encodeQueryComponent =
          [37, upperhex ((UInt8.mk (BitVec.ofFin n)) >>> 4),
            upperhex ((UInt8.mk (BitVec.ofFin n)) &&& 15)] ∧
        ishex (upperhex ((UInt8.mk (BitVec.ofFin n)) >>> 4)) = true ∧
        ishex (upperhex ((UInt8.mk (BitVec.ofFin n)) &&& 15)) = true ∧
        (unhex (upperhex ((UInt8.mk (BitVec.ofFin n)) >>> 4)) <<< 4 |||
          unhex (upperhex ((UInt8.mk (BitVec.ofFin n)) &&& 15))) = UInt8.mk (BitVec.ofFin n)) ∨
      (escapeByte (UInt8.mk (BitVec.ofFin n)) .encodeQueryComponent = [UInt8.mk (BitVec.ofFin n)] ∧
        (UInt8.mk (BitVec.ofFin n)) ≠ 37 ∧ (UInt8.mk (BitVec.ofFin n)) ≠ 43) := by
  decide

theorem escapeByte_query (c : UInt8) :
    (c = 32 ∧ escapeByte c .encodeQueryComponent = [43]) ∨
      (c ≠ 32 ∧
        escapeByte c .encodeQueryComponent = [37, upperhex (c >>> 4), upperhex (c &&& 15)] ∧
        ishex (upperhex (c >>> 4)) = true ∧ ishex (upperhex (c &&& 15)) = true ∧
        (unhex (upperhex (c >>> 4)) <<< 4 ||| unhex (upperhex (c &&& 15))) = c) ∨
      (escapeByte c .encodeQueryComponent = [c] ∧ c ≠ 37 ∧ c ≠ 43) := by
  rcases c with ⟨⟨n⟩⟩
  exact escapeByte_query_cases n

set_option maxRecDepth 1000000 in
theorem escapeByte_query_clean_cases : ∀ n : Fin 256,
    ∀ b ∈ escapeByte (UInt8.mk (BitVec.ofFin n)) .encodeQueryComponent,
      b ≠ 38 ∧ b ≠ 61 ∧ b ≠ 59 := by
  decide

theorem escapeByte_query_clean (c : UInt8) :
    ∀ b ∈ escapeByte c .encodeQueryComponent, b ≠ 38 ∧ b ≠ 61 ∧ b ≠ 59 := by
  rcases c with ⟨⟨n⟩⟩
  exact escapeByte_query_clean_cases n

theorem escape_cons (c : UInt8) (s : Bytes) (mode : Encoding) :
    escape (c :: s) mode = escapeByte c mode ++ escape s mode := by
  simp [escape, List.flatMap_cons]

theorem QueryEscape_clean (s : Bytes) : ∀ b ∈ QueryEscape s, b ≠ 38 ∧ b ≠ 61 ∧ b ≠ 59 := by
  induction s with
  | nil => intro b hb; simp [QueryEscape, escape] at hb
  | cons c s ih =>
    intro b hb
    rw [QueryEscape, escape_cons, List.mem_append] at hb
    rcases hb with hb | hb
    · exact escapeByte_query_clean c b hb
    · exact ih b hb

theorem unescape_escapeByte (c : UInt8) (t : Bytes) :
    unescape (escapeByte c .encodeQueryComponent ++ t) .encodeQueryComponent =
      match unescape t .encodeQueryComponent with
      | .error e => .error e
      | .ok r => .ok (c :: r) := by
  rcases escapeByte_query c with ⟨h1, h2⟩ | ⟨_, h2, h3, h4, h5⟩ | ⟨h2, h3, h4⟩
  · rw [h2, h1]
    simp only [List.singleton_append]
    rw [unescape.eq_def]
    simp
  · rw [h2]
    simp only [List.cons_append, List.nil_append]
    rw [unescape.eq_def]
    simp [h3, h4, h5]
  · rw [h2]
    simp only [List.singleton_append]
    rw [unescape.eq_def]
    simp [h3, h4]

theorem QueryUnescape_QueryEscape (s : Bytes) : QueryUnescape (QueryEscape s) = .ok s := by
  unfold QueryUnescape QueryEscape
  induction s with
  | nil => rfl
  | cons c s ih => rw [escape_cons, unescape_escapeByte, ih]

theorem cut_append (a b : Bytes) (sep : UInt8) (h : sep ∉ a) :
    cut (a ++ sep :: b) sep = (a, b, true) := by
  induction a with
  | nil => simp [cut]
  | cons x xs ih =>
    simp only [List.mem_cons, not_or] at h
    simp [cut, Ne.symm h.1, ih h.2]

theorem cut_not_mem (a : Bytes) (sep : UInt8) (h : sep ∉ a) : cut a sep = (a, [], false) := by
  induction a with
  | nil => simp [cut]
  | cons x xs ih =>
    simp only [List.mem_cons, not_or] at h
    simp [cut, Ne.symm h.1, ih h.2]

theorem pair_clean (k v : Bytes) :
    (38 : UInt8) ∉ QueryEscape k ++ 61 :: QueryEscape v ∧
      (59 : UInt8) ∉ QueryEscape k ++ 61 :: QueryEscape v ∧ (61 : UInt8) ∉ QueryEscape k := by
  refine ⟨?_, ?_, ?_⟩
  · intro h
    rcases List.mem_append.mp h with h | h
    · exact (QueryEscape_clean k _ h).1 rfl
    · rcases List.mem_cons.mp h with h | h
      · exact absurd h (by decide)
      · exact (QueryEscape_clean v _ h).1 rfl
  · intro h
    rcases List.mem_append.mp h with h | h
    · exact (QueryEscape_clean k _ h).2.2 rfl
    · rcases List.mem_cons.mp h with h | h
      · exact absurd h (by decide)
      · exact (QueryEscape_clean v _ h).2.2 rfl
  · intro h
    exact (QueryEscape_clean k _ h).2.1 rfl

/-- One round of the loop of `parseQuery` on a pair that `Encode` wrote, with more
pairs behind it. -/
theorem parseQueryLoop_step (k v rest : Bytes) (fuel : Nat) (m : Values) (err : Option URLErr) :
    parseQueryLoop (fuel + 1) (QueryEscape k ++ 61 :: (QueryEscape v ++ 38 :: rest)) m err =
      parseQueryLoop fuel rest (Values.Add m k v) err := by
  obtain ⟨h38, h59, h61⟩ := pair_clean k v
  have hc : cut (QueryEscape k ++ 61 :: (QueryEscape v ++ 38 :: rest)) 38 =
      (QueryEscape k ++ 61 :: QueryEscape v, rest, true) := by
    have := cut_append (QueryEscape k ++ 61 :: QueryEscape v) rest 38 h38
    simpa using this
  have hk : cut (QueryEscape k ++ 61 :: QueryEscape v) 61 = (QueryEscape k, QueryEscape v, true) :=
    cut_append _ _ 61 h61
  rw [parseQueryLoop]
  simp only [hc, hk, h59, QueryUnescape_QueryEscape]
  simp

/-- The last round of the loop of `parseQuery` on text that `Encode` wrote. -/
theorem parseQueryLoop_last (k v : Bytes) (fuel : Nat) (m : Values) (err : Option URLErr) :
    parseQueryLoop (fuel + 1) (QueryEscape k ++ 61 :: QueryEscape v) m err =
      (Values.Add m k v, err) := by
  obtain ⟨h38, h59, h61⟩ := pair_clean k v
  have hc : cut (QueryEscape k ++ 61 :: QueryEscape v) 38 =
      (QueryEscape k ++ 61 :: QueryEscape v, [], false) := cut_not_mem _ 38 h38
  have hk : cut (QueryEscape k ++ 61 :: QueryEscape v) 61 = (QueryEscape k, QueryEscape v, true) :=
    cut_append _ _ 61 h61
  rw [parseQueryLoop]
  simp only [hc, hk, h59, QueryUnescape_QueryEscape]
  cases fuel <;> simp [parseQueryLoop]

/-- What `ParseQuery` reads back: the pairs that `Encode` wrote, in their order. -/
theorem parseQueryLoop_encodePairs (ps : List (Bytes × Bytes)) :
    ∀ (fuel : Nat) (m : Values) (err : Option URLErr), (encodePairs ps).length ≤ fuel →
      parseQueryLoop fuel (encodePairs ps) m err =
        (ps.foldl (fun q p => Values.Add q p.1 p.2) m, err) := by
  induction ps with
  | nil =>
    intro fuel m err _
    cases fuel <;> simp [encodePairs, parseQueryLoop]
  | cons p ps ih =>
    intro fuel m err hf
    cases ps with
    | nil =>
      simp only [encodePairs, List.append_assoc, List.singleton_append, List.cons_append,
        List.nil_append, List.length_append, List.length_cons] at hf ⊢
      obtain ⟨f, rfl⟩ : ∃ f, fuel = f + 1 := ⟨fuel - 1, by omega⟩
      rw [parseQueryLoop_last]
      rfl
    | cons q rest =>
      simp only [encodePairs, List.append_assoc, List.singleton_append, List.cons_append,
        List.nil_append, List.length_append, List.length_cons] at hf ⊢
      obtain ⟨f, rfl⟩ : ∃ f, fuel = f + 1 := ⟨fuel - 1, by omega⟩
      rw [parseQueryLoop_step, ih f _ err (by omega)]
      rfl

theorem ParseQuery_encodePairs (ps : List (Bytes × Bytes)) :
    ParseQuery (encodePairs ps) = (ps.foldl (fun q p => Values.Add q p.1 p.2) [], none) :=
  parseQueryLoop_encodePairs ps _ [] none (le_refl _)


/-! ## The URL of the request -/

theorem resolvePath_weather (base : Bytes) : resolvePath base (str "/weather") = str "/weather" := by
  rfl

theorem ResolveReference_weather (base : URL) :
    URL.ResolveReference base { Path := str "/weather" } =
      { Scheme := base.Scheme, User := base.User, Host := base.Host, Path := str "/weather" } := by
  rfl

theorem EscapedPath_weather (S H : Bytes) (U : Option Userinfo) :
    URL.EscapedPath { Scheme := S, User := U, Host := H, Path := str "/weather" } =
      str "/weather" := by
  rfl

set_option maxRecDepth 1000000 in
theorem escapeByte_no_question_cases : ∀ n : Fin 256,
    (63 : UInt8) ∉ escapeByte (UInt8.mk (BitVec.ofFin n)) .encodeHost ∧
      (63 : UInt8) ∉ escapeByte (UInt8.mk (BitVec.ofFin n)) .encodeUserPassword := by
  decide

theorem escape_no_question (s : Bytes) :
    (63 : UInt8) ∉ escape s .encodeHost ∧ (63 : UInt8) ∉ escape s .encodeUserPassword := by
  induction s with
  | nil => simp [escape]
  | cons c s ih =>
    rcases c with ⟨⟨n⟩⟩
    have h := escapeByte_no_question_cases n
    rw [escape_cons, escape_cons]
    simp only [List.mem_append, not_or]
    exact ⟨⟨h.1, ih.1⟩, ⟨h.2, ih.2⟩⟩

theorem Userinfo_String_no_question (ui : Userinfo) : (63 : UInt8) ∉ Userinfo.String ui := by
  unfold Userinfo.String
  have h1 := (escape_no_question ui.username).2
  have h2 := (escape_no_question ui.password).2
  split <;> simp [h1, h2]

theorem String_weather_no_question (S H : Bytes) (U : Option Userinfo) (hS : (63 : UInt8) ∉ S) :
    (63 : UInt8) ∉ URL.String { Scheme := S, User := U, Host := H, Path := str "/weather" } := by
  have hp : (63 : UInt8) ∉ str "/weather" := by decide
  have hc : (58 : UInt8) ∉ (cut (str "/weather") 47).1 := by decide
  have hne : str "/weather" ≠ [] := by decide
  have hhead : (str "/weather").head? = some 47 := by decide
  have hh := (escape_no_question H).1
  unfold URL.String
  simp only [EscapedPath_weather]
  cases U with
  | none =>
    simp [hc, hne, hhead]
    refine ⟨?_, hp⟩
    split_ifs <;> simp [hS, hh]
  | some ui =>
    have hu := Userinfo_String_no_question ui
    simp [hc, hne, hhead]
    refine ⟨?_, hp⟩
    split_ifs <;> simp [hS, hh, hu]


/-! ## What `url.Parse` makes of a text without a question mark -/

theorem letter_ne_question (c : UInt8)
    (h : ((97 ≤ c ∧ c ≤ 122) ∨ (65 ≤ c ∧ c ≤ 90)) ∨ ((48 ≤ c ∧ c ≤ 57) ∨ c = 43 ∨ c = 45 ∨ c = 46)) :
    c ≠ 63 := by
  rintro rfl
  revert h
  decide

theorem getSchemeLoop_rest (raw : Bytes) :
    ∀ (l : Bytes) (i : Nat) (sch rest : Bytes), (∀ b ∈ l, b ∈ raw) →
      getSchemeLoop raw l i = .ok (sch, rest) → ∀ b ∈ rest, b ∈ raw := by
  intro l
  induction l with
  | nil =>
    intro i sch rest _ h
    simp only [getSchemeLoop, Except.ok.injEq, Prod.mk.injEq] at h
    rw [← h.2]; exact fun b hb => hb
  | cons c l ih =>
    intro i sch rest hl h
    have hl2 : ∀ b ∈ l, b ∈ raw := fun b hb => hl b (List.mem_cons_of_mem _ hb)
    rw [getSchemeLoop] at h
    split at h
    · exact ih _ _ _ hl2 h
    · split at h
      · split at h
        · simp only [Except.ok.injEq, Prod.mk.injEq] at h
          rw [← h.2]; exact fun b hb => hb
        · exact ih _ _ _ hl2 h
      · split at h
        · split at h
          · simp at h
          · simp only [Except.ok.injEq, Prod.mk.injEq] at h
            rw [← h.2]; exact hl2
        · simp only [Except.ok.injEq, Prod.mk.injEq] at h
          rw [← h.2]; exact fun b hb => hb

theorem getSchemeLoop_scheme :
    ∀ (l pre sch rest : Bytes), (63 : UInt8) ∉ pre →
      getSchemeLoop (pre ++ l) l pre.length = .ok (sch, rest) → (63 : UInt8) ∉ sch := by
  intro l
  induction l with
  | nil =>
    intro pre sch rest _ h
    simp only [getSchemeLoop, Except.ok.injEq, Prod.mk.injEq] at h
    rw [← h.1]; simp
  | cons c l ih =>
    intro pre sch rest hpre h
    have hstep : ∀ (hc : c ≠ 63),
        getSchemeLoop (pre ++ c :: l) l (pre.length + 1) = .ok (sch, rest) → (63 : UInt8) ∉ sch := by
      intro hc h2
      have e : pre ++ c :: l = (pre ++ [c]) ++ l := by simp
      rw [e] at h2
      have hlen : pre.length + 1 = (pre ++ [c]).length := by simp
      rw [hlen] at h2
      refine ih (pre ++ [c]) sch rest ?_ h2
      simp only [List.mem_append, List.mem_singleton, not_or]
      exact ⟨hpre, fun h => hc h.symm⟩
    rw [getSchemeLoop] at h
    split at h
    · rename_i hc
      exact hstep (letter_ne_question c (Or.inl hc)) h
    · split at h
      · rename_i hc
        split at h
        · simp only [Except.ok.injEq, Prod.mk.injEq] at h
          rw [← h.1]; simp
        · exact hstep (letter_ne_question c (Or.inr hc)) h
      · split at h
        · split at h
          · simp at h
          · simp only [Except.ok.injEq, Prod.mk.injEq] at h
            rw [← h.1, List.take_left]
            exact hpre
        · simp only [Except.ok.injEq, Prod.mk.injEq] at h
          rw [← h.1]; simp

theorem getScheme_spec (raw sch rest : Bytes) (h : getScheme raw = .ok (sch, rest)) :
    (63 : UInt8) ∉ sch ∧ ∀ b ∈ rest, b ∈ raw := by
  unfold getScheme at h
  exact ⟨getSchemeLoop_scheme raw [] sch rest (by simp) (by simpa using h),
    getSchemeLoop_rest raw raw 0 sch rest (fun b hb => hb) h⟩

set_option maxRecDepth 1000000 in
theorem toLower_question_cases : ∀ n : Fin 256,
    (if 65 ≤ (UInt8.mk (BitVec.ofFin n)) ∧ (UInt8.mk (BitVec.ofFin n)) ≤ 90
      then (UInt8.mk (BitVec.ofFin n)) + 32 else (UInt8.mk (BitVec.ofFin n))) = 63 →
      (UInt8.mk (BitVec.ofFin n)) = 63 := by
  decide

theorem toLowerASCII_no_question (s : Bytes) (h : (63 : UInt8) ∉ s) :
    (63 : UInt8) ∉ toLowerASCII s := by
  unfold toLowerASCII
  intro hm
  obtain ⟨c, hc, he⟩ := List.mem_map.mp hm
  rcases c with ⟨⟨n⟩⟩
  have := toLower_question_cases n he
  rw [this] at hc
  exact h hc

theorem setPath_fields (u v : URL) (p : Bytes) (h : URL.setPath u p = .ok v) :
    v.RawQuery = u.RawQuery ∧ v.Scheme = u.Scheme := by
  unfold URL.setPath at h
  split at h
  · simp at h
  · simp only [Except.ok.injEq] at h
    subst h
    exact ⟨rfl, rfl⟩

theorem setFragment_fields (u v : URL) (f : Bytes) (h : URL.setFragment u f = .ok v) :
    v.RawQuery = u.RawQuery ∧ v.Scheme = u.Scheme := by
  unfold URL.setFragment at h
  split at h
  · simp at h
  · simp only [Except.ok.injEq] at h
    subst h
    exact ⟨rfl, rfl⟩

theorem parse_spec (s : Bytes) (v : URL) (h : parse s = .ok v) :
    (63 : UInt8) ∉ v.Scheme ∧ ((63 : UInt8) ∉ s → v.RawQuery = []) := by
  unfold parse at h
  split at h
  · simp at h
  · split at h
    · simp only [Except.ok.injEq] at h
      subst h
      exact ⟨by simp, fun _ => rfl⟩
    · split at h
      · simp at h
      · rename_i scheme rest hsch
        obtain ⟨h1, h2⟩ := getScheme_spec s scheme rest hsch
        have hS := toLowerASCII_no_question scheme h1
        have hq : (63 : UInt8) ∉ s →
            (if (hasSuffix rest [63] && decide (rest.count 63 = 1)) = true then ([] : Bytes)
              else (cut rest 63).2.1) = [] := by
          intro hs
          have : (63 : UInt8) ∉ rest := fun hm => hs (h2 _ hm)
          rw [cut_not_mem rest 63 this]
          simp
        simp only at h
        generalize (if (hasSuffix rest [63] && decide (rest.count 63 = 1)) = true
          then rest.dropLast else (cut rest 63).1) = rest1 at h
        generalize (if (hasSuffix rest [63] && decide (rest.count 63 = 1)) = true
          then ([] : Bytes) else (cut rest 63).2.1) = rq at h hq
        generalize (hasSuffix rest [63] && decide (rest.count 63 = 1)) = fq at h
        split at h
        · simp only [Except.ok.injEq] at h
          subst h
          exact ⟨hS, hq⟩
        · split at h
          · simp at h
          · split at h
            · split at h
              · simp at h
              · obtain ⟨e1, e2⟩ := setPath_fields _ _ _ h
                rw [e1, e2]
                exact ⟨hS, hq⟩
            · split at h
              · obtain ⟨e1, e2⟩ := setPath_fields _ _ _ h
                rw [e1, e2]
                exact ⟨hS, hq⟩
              · obtain ⟨e1, e2⟩ := setPath_fields _ _ _ h
                rw [e1, e2]
                exact ⟨hS, hq⟩

theorem cut_fst_subset (s : Bytes) (sep : UInt8) : ∀ b ∈ (cut s sep).1, b ∈ s := by
  induction s with
  | nil => simp [cut]
  | cons c s ih =>
    intro b hb
    rw [cut] at hb
    split at hb
    · simp at hb
    · simp only [List.mem_cons] at hb ⊢
      rcases hb with hb | hb
      · exact Or.inl hb
      · exact Or.inr (ih b hb)

theorem urlParse_spec (s : Bytes) (v : URL) (h : urlParse s = .ok v) :
    (63 : UInt8) ∉ v.Scheme ∧ ((63 : UInt8) ∉ s → v.RawQuery = []) := by
  unfold urlParse at h
  simp only at h
  split at h
  · simp at h
  · rename_i url hp
    obtain ⟨h1, h2⟩ := parse_spec _ _ hp
    have h3 : (63 : UInt8) ∉ s → url.RawQuery = [] :=
      fun hs => h2 (fun hm => hs (cut_fst_subset s 35 _ hm))
    split at h
    · simp only [Except.ok.injEq] at h
      subst h
      exact ⟨h1, h3⟩
    · split at h
      · simp at h
      · rename_i url2 hf
        simp only [Except.ok.injEq] at h
        subst h
        obtain ⟨e1, e2⟩ := setFragment_fields _ _ _ hf
        rw [e1, e2]
        exact ⟨h1, h3⟩

/-- The request that `Request("GET", "/weather", nil)` builds has an empty query,
whatever the base URL. -/
theorem Request_weather_RawQuery (c : Client) (req : Request)
    (h : Client.Request noEncoder c (str "GET") (str "/weather") none = .ok req) :
    req.URL.RawQuery = [] := by
  obtain ⟨baseURL, buf, r0, hb, -, hr0, rfl⟩ := Request_ok _ _ _ _ _ _ h
  obtain ⟨-, -, u, hu, hurl⟩ := NewRequest_ok _ _ _ _ hr0
  rw [ResolveReference_weather] at hu
  have hS := (urlParse_spec _ _ hb).1
  have hq := (urlParse_spec _ _ hu).2 (String_weather_no_question _ _ _ hS)
  simp only [hurl, hq]



/-! ## The query the lookups send -/

theorem doLookup_sent (net : Network) (c : Client) (req : Request) :
    (doLookup net c req).2 = [req] := by
  unfold doLookup Client.Do
  cases net req with
  | error e => rfl
  | ok res =>
    simp only
    cases (decodeOpenWeatherMap res.Body {}).2 <;> rfl

theorem queryKeys_ne :
    str "q" ≠ str "APPID" ∧ str "zip" ≠ str "APPID" ∧ str "lat" ≠ str "lon" ∧
      str "lat" ≠ str "APPID" ∧ str "lon" ≠ str "APPID" ∧ str "lon" ≠ str "lat" ∧
      str "APPID" ≠ str "q" ∧ str "APPID" ≠ str "lat" ∧ str "APPID" ≠ str "lon" := by decide

theorem Encode_city (city key : Bytes) :
    Values.Encode [(str "q", [city]), (str "APPID", [key])] =
      encodePairs [(str "APPID", key), (str "q", city)] := by
  have hs : sortKeys [str "q", str "APPID"] = [str "APPID", str "q"] := by decide
  obtain ⟨h1, -, -, -, -, -, h2, -, -⟩ := queryKeys_ne
  simp [Values.Encode, hs, Values.get, encodePairs, h1, h2]

theorem Encode_coordinates (lat lon key : Bytes) :
    Values.Encode [(str "lat", [lat]), (str "lon", [lon]), (str "APPID", [key])] =
      encodePairs [(str "APPID", key), (str "lat", lat), (str "lon", lon)] := by
  have hs : sortKeys [str "lat", str "lon", str "APPID"] = [str "APPID", str "lat", str "lon"] := by
    decide
  obtain ⟨-, -, h1, h2, h3, h4, -, h5, h6⟩ := queryKeys_ne
  simp [Values.Encode, hs, Values.get, encodePairs, h1, h2, h3, h4, h5, h6]

/-- C4: for every city, every API key and every base URL with which the request can
be built (one that carries a query string too), `ByCityName` sends exactly one
request, whose query string is `APPID=<key>&q=<city>` with both values
query-escaped, and that query string decodes to exactly two parameters: `APPID`
with the single value key and `q` with the single value city. -/
theorem C4_city_query (net : Network) (c : Client) (city : Bytes) (req0 : Request)
    (hreq : Client.Request noEncoder c (str "GET") (str "/weather") none = .ok req0) :
    ∃ req, (Client.ByCityName net c city).2 = [req] ∧
      req.URL.RawQuery =
        str "APPID=" ++ QueryEscape c.key ++ str "&q=" ++ QueryEscape city ∧
      ParseQuery req.URL.RawQuery = ([(str "APPID", [c.key]), (str "q", [city])], none) := by
  have hq := Request_weather_RawQuery c req0 hreq
  have hQ : URL.Query req0.URL = [] := by rw [URL.Query, hq]; rfl
  obtain ⟨h1, -, -, -, -, -, h2, -, -⟩ := queryKeys_ne
  refine ⟨_, by rw [ByCityName_eq, hreq]; exact doLookup_sent _ _ _, ?_, ?_⟩
  · simp only [withQuery, hQ, List.foldl, Values.Add, h1, if_false, Encode_city, encodePairs]
    have e1 : QueryEscape (str "APPID") = str "APPID" := by decide
    have e2 : QueryEscape (str "q") = str "q" := by decide
    have e3 : str "APPID=" = str "APPID" ++ [61] := by decide
    have e4 : str "&q=" = [38] ++ str "q" ++ [61] := by decide
    rw [e1, e2, e3, e4]
    simp
  · simp only [withQuery, hQ, List.foldl, Values.Add, h1, if_false, Encode_city]
    rw [ParseQuery_encodePairs]
    simp [Values.Add, h2]


set_option maxRecDepth 1000000 in
/-- C4, witness: the city `Austin` and the key `Test` on a client made by `New`; the
query string sent is `APPID=Test&q=Austin`. -/
theorem C4_city_query_witness :
    Client.Request noEncoder (New (str "Test")) (str "GET") (str "/weather") none =
        .ok defaultWeatherRequest ∧
      (∃ req, (Client.ByCityName (constNetwork 200 referenceDocument) (New (str "Test"))
          (str "Austin")).2 = [req] ∧
        req.URL.RawQuery =
          str "APPID=" ++ QueryEscape (New (str "Test")).key ++ str "&q=" ++
            QueryEscape (str "Austin") ∧
        ParseQuery req.URL.RawQuery =
          ([(str "APPID", [(New (str "Test")).key]), (str "q", [str "Austin"])], none)) ∧
      (Client.ByCityName (constNetwork 200 referenceDocument) (New (str "Test"))
          (str "Austin")).2.map (fun r => r.URL.RawQuery) = [str "APPID=Test&q=Austin"] :=
  ⟨Request_default _,
    C4_city_query (constNetwork 200 referenceDocument) (New (str "Test")) (str "Austin")
      defaultWeatherRequest (Request_default _),
    by decide!⟩

theorem scaledMillionths_spec (m : Nat) (e : Int) :
    (0 ≤ e → scaledMillionths m e = m * 2 ^ e.toNat * 1000000) ∧
      (e < 0 →
        2 * (scaledMillionths m e * 2 ^ (-e).toNat) ≤ 2 * (m * 1000000) + 2 ^ (-e).toNat ∧
          2 * (m * 1000000) ≤ 2 * (scaledMillionths m e * 2 ^ (-e).toNat) + 2 ^ (-e).toNat) := by
  constructor
  · intro he
    unfold scaledMillionths
    simp [he, Nat.mod_one]
  · intro he
    have hne : ¬ (e ≥ 0) := by omega
    unfold scaledMillionths
    simp only [hne, if_false]
    have hd : 0 < 2 ^ (-e).toNat := by positivity
    generalize 2 ^ (-e).toNat = d at hd ⊢
    generalize m * 1000000 = N
    have hm : d * (N / d) + N % d = N := Nat.div_add_mod N d
    have hr : N % d < d := Nat.mod_lt N hd
    generalize N / d = q0 at hm ⊢
    generalize N % d = r at hm hr ⊢
    have e1 : (q0 + 1) * d = d * q0 + d := by ring
    have e2 : q0 * d = d * q0 := Nat.mul_comm _ _
    split
    · rename_i hc
      rw [e1]
      generalize d * q0 = P at hm ⊢
      omega
    · rename_i hc
      rw [e2]
      generalize d * q0 = P at hm ⊢
      omega

theorem formatF_finite (x : Float64) (h : x.isFinite = true) : IsFixedPointTextOf x (formatF x) := by
  cases x with
  | finite neg m e =>
    exact ⟨neg, m, e, scaledMillionths m e, rfl, rfl, (scaledMillionths_spec m e).1,
      (scaledMillionths_spec m e).2⟩
  | inf neg => simp [Float64.isFinite] at h
  | nan => simp [Float64.isFinite] at h

/-- C5 (as amended): for every finite `lat` and `lon`, every key and every base URL
with which the request can be built, `ByCoordinates(lat, lon)` sends exactly one
request, whose query string decodes to exactly three parameters: `APPID` with the
key, `lat` with the fixed-point decimal text (six fractional digits) of the first
argument and `lon` with that of the second; the two are not transposed. -/
theorem C5_coordinates_query (net : Network) (c : Client) (lat lon : Float64) (req0 : Request)
    (hreq : Client.Request noEncoder c (str "GET") (str "/weather") none = .ok req0)
    (hlat : lat.isFinite = true) (hlon : lon.isFinite = true) :
    ∃ req latText lonText, (Client.ByCoordinates net c lat lon).2 = [req] ∧
      ParseQuery req.URL.RawQuery =
        ([(str "APPID", [c.key]), (str "lat", [latText]), (str "lon", [lonText])], none) ∧
      latText = formatF lat ∧ lonText = formatF lon ∧
      IsFixedPointTextOf lat latText ∧ IsFixedPointTextOf lon lonText := by
  have hq := Request_weather_RawQuery c req0 hreq
  have hQ : URL.Query req0.URL = [] := by rw [URL.Query, hq]; rfl
  obtain ⟨-, -, h1, h2, h3, h4, -, h5, h6⟩ := queryKeys_ne
  refine ⟨_, formatF lat, formatF lon, by rw [ByCoordinates_eq, hreq]; exact doLookup_sent _ _ _,
    ?_, rfl, rfl, formatF_finite lat hlat, formatF_finite lon hlon⟩
  simp only [withQuery, hQ, List.foldl, Values.Add, h1, h2, h3, if_false, Encode_coordinates]
  rw [ParseQuery_encodePairs]
  simp [Values.Add, h5, h6, h1]

set_option maxRecDepth 1000000 in
/-- C5, witness: `ByCoordinates(30.27, -97.74)` with the key `Test` on a client made
by `New` sends `lat=30.270000` and `lon=-97.740000`. -/
theorem C5_coordinates_query_witness :
    Client.Request noEncoder (New (str "Test")) (str "GET") (str "/weather") none =
        .ok defaultWeatherRequest ∧
      (float64Const false 3027 100).isFinite = true ∧
      (float64Const true 9774 100).isFinite = true ∧
      (∃ req latText lonText,
        (Client.ByCoordinates (constNetwork 200 referenceDocument) (New (str "Test"))
          (float64Const false 3027 100) (float64Const true 9774 100)).2 = [req] ∧
        ParseQuery req.URL.RawQuery =
          ([(str "APPID", [(New (str "Test")).key]), (str "lat", [latText]),
            (str "lon", [lonText])], none) ∧
        latText = formatF (float64Const false 3027 100) ∧
        lonText = formatF (float64Const true 9774 100) ∧
        IsFixedPointTextOf (float64Const false 3027 100) latText ∧
        IsFixedPointTextOf (float64Const true 9774 100) lonText) ∧
      formatF (float64Const false 3027 100) = str "30.270000" ∧
      formatF (float64Const true 9774 100) = str "-97.740000" ∧
      (Client.ByCoordinates (constNetwork 200 referenceDocument) (New (str "Test"))
          (float64Const false 3027 100) (float64Const true 9774 100)).2.map
        (fun r => r.URL.RawQuery) = [str "APPID=Test&lat=30.270000&lon=-97.740000"] ∧
      isNearestDouble false 3027 100 (float64Const false 3027 100) = true ∧
      isNearestDouble true 9774 100 (float64Const true 9774 100) = true :=
  ⟨Request_default _, by decide, by decide,
    C5_coordinates_query (constNetwork 200 referenceDocument) (New (str "Test"))
      (float64Const false 3027 100) (float64Const true 9774 100) defaultWeatherRequest
      (Request_default _) (by decide) (by decide),
    by decide, by decide, by decide!, by decide, by decide⟩

theorem fixedPointText_has_point (neg : Bool) (q : Nat) : (46 : UInt8) ∈ fixedPointText neg q := by
  simp [fixedPointText]

set_option maxRecDepth 1000000 in
/-- C5 as stated fails: `ByCoordinates(NaN, 0)` sends `lat=NaN`, and `NaN` is not the
fixed-point decimal text of any number. -/
theorem C5_counterexample :
    (Client.ByCoordinates (constNetwork 200 referenceDocument) (New (str "Test"))
        .nan Float64.zero).2.map (fun r => ParseQuery r.URL.RawQuery) =
      [([(str "APPID", [str "Test"]), (str "lat", [str "NaN"]),
        (str "lon", [str "0.000000"])], none)] ∧
      (∀ neg q, str "NaN" ≠ fixedPointText neg q) ∧
      ¬ IsFixedPointTextOf .nan (str "NaN") := by
  refine ⟨by decide!, ?_, ?_⟩
  · intro neg q h
    have h1 := fixedPointText_has_point neg q
    rw [← h] at h1
    revert h1
    decide
  · rintro ⟨neg, m, e, q, h, -⟩
    cases h


end Owm
